import Mathlib

/-! Shallow embedding of the Lab01 single-server queueing simulators
(src/Lab1partA.py, src/Lab1partB.py, src/001.py).

Python floats are modelled as exact rationals.  Each call of
random.expovariate is modelled by reading the next value of an explicit
stream of drawn values, indexed by draw order.  The heapq priority queue,
whose events compare by time only, is modelled by popMinBy, which removes
the earliest-inserted event of minimal time; the tie order among
equal-time events is left unspecified by the source, and no theorem below
depends on this choice.  A raised Python exception is modelled by an err
flag on the state, or by an Except.error value for the statistics
functions.  The fields log, enqIds and depIds are ghost instrumentation
recording the popped (time, packets-in-system) pairs, the queue insertion
order and the departure order; they influence no control flow. -/

/-- Event kinds, as in the Python string field type. -/
inductive EKind
  | arrival
  | departure
deriving DecidableEq

/-- An event of Lab1partA.py / Lab1partB.py: (time, type, pkt_id). -/
structure Event where
  time : ℚ
  kind : EKind
  pkt : ℕ
deriving DecidableEq

/-- True for departure events. -/
def Event.isDep (e : Event) : Bool :=
  match e.kind with
  | EKind.departure => true
  | EKind.arrival => false

/-- True for arrival events. -/
def Event.isArr (e : Event) : Bool :=
  match e.kind with
  | EKind.departure => false
  | EKind.arrival => true

/-- Model of heappop on a heap whose elements compare by the key f only:
remove and return the earliest-inserted element of minimal key, or none
when the list is empty. -/
def popMinBy {α : Type} (f : α → ℚ) : List α → Option (α × List α)
  | [] => none
  | a :: as =>
    match popMinBy f as with
    | none => some (a, [])
    | some (m, rest) => if f a ≤ f m then some (a, as) else some (m, a :: rest)

theorem popMinBy_eq_none {α : Type} (f : α → ℚ) :
    ∀ l : List α, popMinBy f l = none → l = [] := by
  intro l h
  cases l with
  | nil => rfl
  | cons a as =>
    simp only [popMinBy] at h
    cases hi : popMinBy f as with
    | none => rw [hi] at h; simp at h
    | some p => rw [hi] at h; cases p with
      | mk m rest => by_cases hle : f a ≤ f m <;> simp [hle] at h

theorem popMinBy_perm {α : Type} (f : α → ℚ) :
    ∀ (l : List α) (m : α) (rest : List α),
      popMinBy f l = some (m, rest) → l.Perm (m :: rest) := by
  intro l
  induction l with
  | nil => intro m rest h; simp [popMinBy] at h
  | cons a as ih =>
    intro m rest h
    simp only [popMinBy] at h
    cases hi : popMinBy f as with
    | none =>
      rw [hi] at h
      simp only [Option.some.injEq, Prod.mk.injEq] at h
      obtain ⟨rfl, rfl⟩ := h
      have : as = [] := popMinBy_eq_none f as hi
      subst this
      exact List.Perm.refl _
    | some p =>
      rw [hi] at h
      cases p with
      | mk m2 rest2 =>
        by_cases hle : f a ≤ f m2
        · simp only [hle, if_true, Option.some.injEq, Prod.mk.injEq] at h
          obtain ⟨rfl, rfl⟩ := h
          exact List.Perm.refl _
        · simp only [hle, if_false, Option.some.injEq, Prod.mk.injEq] at h
          obtain ⟨h1, h2⟩ := h
          subst h1
          subst h2
          exact ((ih _ _ hi).cons a).trans (List.Perm.swap _ a _)

theorem popMinBy_min {α : Type} (f : α → ℚ) :
    ∀ (l : List α) (m : α) (rest : List α),
      popMinBy f l = some (m, rest) → ∀ b ∈ l, f m ≤ f b := by
  intro l
  induction l with
  | nil => intro m rest h; simp [popMinBy] at h
  | cons a as ih =>
    intro m rest h b hb
    simp only [popMinBy] at h
    cases hi : popMinBy f as with
    | none =>
      rw [hi] at h
      simp only [Option.some.injEq, Prod.mk.injEq] at h
      obtain ⟨rfl, rfl⟩ := h
      have : as = [] := popMinBy_eq_none f as hi
      subst this
      simp at hb
      subst hb
      exact le_refl _
    | some p =>
      rw [hi] at h
      cases p with
      | mk m2 rest2 =>
        by_cases hle : f a ≤ f m2
        · simp only [hle, if_true, Option.some.injEq, Prod.mk.injEq] at h
          obtain ⟨h1, h2⟩ := h
          subst h1
          subst h2
          rcases List.mem_cons.mp hb with heq | hmem
          · subst heq; exact le_refl _
          · exact le_trans hle (ih _ _ hi b hmem)
        · simp only [hle, if_false, Option.some.injEq, Prod.mk.injEq] at h
          obtain ⟨h1, h2⟩ := h
          subst h1
          subst h2
          rcases List.mem_cons.mp hb with heq | hmem
          · subst heq; exact le_of_lt (lt_of_not_le hle)
          · exact ih _ _ hi b hmem

theorem popMinBy_mem {α : Type} (f : α → ℚ) (l : List α) (m : α) (rest : List α)
    (h : popMinBy f l = some (m, rest)) : m ∈ l :=
  (popMinBy_perm f l m rest h).symm.subset (List.mem_cons_self m rest)

theorem popMinBy_rest_subset {α : Type} (f : α → ℚ) (l : List α) (m : α) (rest : List α)
    (h : popMinBy f l = some (m, rest)) : ∀ b ∈ rest, b ∈ l := by
  intro b hb
  exact (popMinBy_perm f l m rest h).symm.subset (List.mem_cons_of_mem m hb)

theorem popMinBy_countP {α : Type} (f : α → ℚ) (l : List α) (m : α) (rest : List α)
    (p : α → Bool) (h : popMinBy f l = some (m, rest)) :
    l.countP p = (m :: rest).countP p :=
  (popMinBy_perm f l m rest h).countP_eq p

/-- LINK_RATE_BPS = 10_000_000_000 in Lab1partA.py and Lab1partB.py, equal
to service_rate_bps = 10 * 10 ** 9 in 001.py. -/
def linkRateBps : ℚ := 10000000000

/-- Lab1partB.py line 64: service_time_us = (pkt_size_bytes * 8 / LINK_RATE_BPS) * 1e6. -/
def serviceTimeUs (bytes : ℚ) : ℚ := bytes * 8 / linkRateBps * 1000000

/-- The arithmetic fault Python raises on division by zero. -/
inductive PyErr
  | zeroDivision
deriving DecidableEq

/-- index = self.pkts_in_system if self.pkts_in_system <= 10 else 11, the
clamped bucket used by Lab1partA.py line 60 and Lab1partB.py line 68. -/
def clampIdx (p : ℕ) : Fin 12 :=
  if h : p ≤ 10 then ⟨p, by omega⟩ else ⟨11, by omega⟩

/-- State of TraceSimulator in Lab1partB.py.  The trace is the list of
(inter_arrival_us, pkt_size_bytes) rows; queue entries are the
(pkt_id, arrival time, service_time_us) triples appended by
handle_arrival.  log, enqIds, depIds are ghost fields and err models a
raised IndexError (queue access on an empty list). -/
structure StateB where
  trace : List (ℚ × ℚ)
  queue : List (ℕ × ℚ × ℚ)
  event_list : List Event
  curr_time : ℚ
  in_service : Bool
  total_delay : ℚ
  total_pkts : ℕ
  queue_len_record : Fin 12 → ℕ
  pkts_in_system : ℕ
  area_under_q : ℚ
  last_event_time : ℚ
  log : List (ℚ × ℕ)
  enqIds : List ℕ
  depIds : List ℕ
  err : Bool

/-- TraceSimulator.start_service: set in_service, read queue[0], schedule
its departure at curr_time + service_time.  Reading queue[0] of an empty
queue raises in Python; that is the err branch. -/
def start_serviceB (s : StateB) : StateB :=
  match s.queue.head? with
  | none => { s with err := true }
  | some (pid, _arr, st) =>
    { s with in_service := true,
             event_list := s.event_list ++
               [{ time := s.curr_time + st, kind := EKind.departure, pkt := pid }] }

/-- TraceSimulator.handle_arrival: look up the packet size in the trace,
compute its service time, record the pre-arrival packets-in-system count
in the clamped distribution counter, increment pkts_in_system, append the
packet to the queue, and start service if the server is idle. -/
def handle_arrivalB (e : Event) (s : StateB) : StateB :=
  let sz := (s.trace.getD e.pkt (0, 0)).2
  let st := serviceTimeUs sz
  let idx : Fin 12 := clampIdx s.pkts_in_system
  let s1 := { s with
    queue_len_record :=
      Function.update s.queue_len_record idx (s.queue_len_record idx + 1),
    pkts_in_system := s.pkts_in_system + 1 }
  let s2 := { s1 with
    queue := s1.queue ++ [(e.pkt, s1.curr_time, st)],
    enqIds := s1.enqIds ++ [e.pkt] }
  if s2.in_service then s2 else start_serviceB s2

/-- TraceSimulator.handle_departure: pop the queue head (IndexError on an
empty queue is the err branch), accumulate its delay, count the departure,
decrement pkts_in_system, then serve the next head or go idle. -/
def handle_departureB (s : StateB) : StateB :=
  match s.queue with
  | [] => { s with err := true }
  | (pid, arr, _st) :: rest =>
    let delay := s.curr_time - arr
    let s1 := { s with
      queue := rest,
      total_delay := s.total_delay + delay,
      total_pkts := s.total_pkts + 1,
      pkts_in_system := s.pkts_in_system - 1,
      depIds := s.depIds ++ [pid] }
    if s1.queue.isEmpty then { s1 with in_service := false } else start_serviceB s1

/-- The head of each TraceSimulator.run loop iteration, after event e has
been popped leaving rest: set curr_time to the event time, add
pkts_in_system * (new time - last_event_time) to the area integral, and
update last_event_time.  The popped (time, pkts_in_system) pair is also
appended to the ghost log. -/
def advanceB (e : Event) (rest : List Event) (s : StateB) : StateB :=
  { s with
    event_list := rest,
    curr_time := e.time,
    area_under_q :=
      s.area_under_q + (s.pkts_in_system : ℚ) * (e.time - s.last_event_time),
    last_event_time := e.time,
    log := s.log ++ [(e.time, s.pkts_in_system)] }

/-- One iteration of the TraceSimulator.run while loop: pop the earliest
event (advanceB), then dispatch on its kind.  With an empty event list
the loop has ended and the state is returned unchanged. -/
def stepB (s : StateB) : StateB :=
  match popMinBy Event.time s.event_list with
  | none => s
  | some (e, rest) =>
    match e.kind with
    | EKind.arrival => handle_arrivalB e (advanceB e rest s)
    | EKind.departure => handle_departureB (advanceB e rest s)

/-- The arrival events primed in TraceSimulator.run before the loop: a
running sum over the inter-arrival column, with pkt_id equal to the row
index. -/
def primeArrivals : ℚ → ℕ → List (ℚ × ℚ) → List Event
  | _, _, [] => []
  | t, i, (ia, _sz) :: rest =>
    { time := t + ia, kind := EKind.arrival, pkt := i } :: primeArrivals (t + ia) (i + 1) rest

/-- TraceSimulator.__init__ plus the priming phase of run. -/
def initB (trace : List (ℚ × ℚ)) : StateB :=
  { trace := trace, queue := [], event_list := primeArrivals 0 0 trace,
    curr_time := 0, in_service := false, total_delay := 0, total_pkts := 0,
    queue_len_record := fun _ => 0, pkts_in_system := 0, area_under_q := 0,
    last_event_time := 0, log := [], enqIds := [], depIds := [], err := false }

/-- The TraceSimulator state after k iterations of the event loop. -/
def iterB (trace : List (ℚ × ℚ)) (k : ℕ) : StateB := stepB^[k] (initB trace)

/-- A full TraceSimulator run: every row contributes one arrival and one
departure event, so 2 * length iterations drain the event list. -/
def runTraceB (trace : List (ℚ × ℚ)) : StateB := iterB trace (2 * trace.length)

/-- TraceSimulator.print_stats lines 97 and 98: N = area_under_q /
curr_time and T = total_delay / total_pkts, with a Python float division
raising ZeroDivisionError on a zero denominator. -/
def finalStatsB (s : StateB) : Except PyErr (ℚ × ℚ) :=
  if s.curr_time = 0 then Except.error PyErr.zeroDivision
  else if s.total_pkts = 0 then Except.error PyErr.zeroDivision
  else Except.ok (s.area_under_q / s.curr_time, s.total_delay / (s.total_pkts : ℚ))

/-- total_arrivals = sum(self.queue_len_record) in print_stats. -/
def totalArrivalsB (s : StateB) : ℕ := ∑ i, s.queue_len_record i

/-- The twelve reported probabilities of print_stats: count[n] /
total_arrivals for n in 0..10 followed by the overflow bucket count[11] /
total_arrivals. -/
def pnProbsB (s : StateB) : List ℚ :=
  List.ofFn (fun i : Fin 12 => (s.queue_len_record i : ℚ) / (totalArrivalsB s : ℚ))

/-- State of MM1Simulator in Lab1partA.py.  The inter-arrival and
packet-size draws of random.expovariate are modelled by two streams read
at positions gapIdx and sizeIdx: gaps i is the value returned by the
i-th inter-arrival draw and sizes i the value (in bits) of the i-th
packet-size draw made inside start_service.  Queue entries are the
(pkt_id, arrival time) pairs of the source. -/
structure StateA where
  npkts : ℕ
  queue : List (ℕ × ℚ)
  event_list : List Event
  curr_time : ℚ
  next_pkt_id : ℕ
  in_service : Bool
  total_delay : ℚ
  total_pkts : ℕ
  queue_len_record : Fin 12 → ℕ
  pkts_in_system : ℕ
  area_under_q : ℚ
  last_event_time : ℚ
  gapIdx : ℕ
  sizeIdx : ℕ
  log : List (ℚ × ℕ)
  enqIds : List ℕ
  depIds : List ℕ
  err : Bool

/-- MM1Simulator.start_service: draw a packet size in bits from the size
stream (random.expovariate(1 / MEAN_PKT_SIZE_BITS) at line 91), compute
service_time = (pkt_size_bits / LINK_RATE_BPS) * 1e6, and schedule the
departure of the queue head.  Reading queue[0] of an empty queue raises
in Python; that is the err branch. -/
def start_serviceA (sizes : ℕ → ℚ) (s : StateA) : StateA :=
  match s.queue.head? with
  | none => { s with err := true }
  | some (pid, _arr) =>
    let bits := sizes s.sizeIdx
    let st := bits / linkRateBps * 1000000
    { s with in_service := true,
             sizeIdx := s.sizeIdx + 1,
             event_list := s.event_list ++
               [{ time := s.curr_time + st, kind := EKind.departure, pkt := pid }] }

/-- MM1Simulator.handle_arrival: record the pre-arrival packets-in-system
count in the clamped distribution counter, increment pkts_in_system,
schedule the next arrival at curr_time plus a fresh inter-arrival draw,
append the arriving packet to the queue, and start service if idle. -/
def handle_arrivalA (gaps sizes : ℕ → ℚ) (e : Event) (s : StateA) : StateA :=
  let idx : Fin 12 := clampIdx s.pkts_in_system
  let s1 := { s with
    queue_len_record :=
      Function.update s.queue_len_record idx (s.queue_len_record idx + 1),
    pkts_in_system := s.pkts_in_system + 1 }
  let s2 := { s1 with
    event_list := s1.event_list ++
      [({ time := s1.curr_time + gaps s1.gapIdx, kind := EKind.arrival,
          pkt := s1.next_pkt_id } : Event)],
    next_pkt_id := s1.next_pkt_id + 1,
    gapIdx := s1.gapIdx + 1 }
  let s3 := { s2 with
    queue := s2.queue ++ [(e.pkt, s2.curr_time)],
    enqIds := s2.enqIds ++ [e.pkt] }
  if s3.in_service then s3 else start_serviceA sizes s3

/-- MM1Simulator.handle_departure: pop the queue head, accumulate its
delay, count the departure, decrement pkts_in_system, then serve the next
head or go idle. -/
def handle_departureA (sizes : ℕ → ℚ) (s : StateA) : StateA :=
  match s.queue with
  | [] => { s with err := true }
  | (pid, arr) :: rest =>
    let delay := s.curr_time - arr
    let s1 := { s with
      queue := rest,
      total_delay := s.total_delay + delay,
      total_pkts := s.total_pkts + 1,
      pkts_in_system := s.pkts_in_system - 1,
      depIds := s.depIds ++ [pid] }
    if s1.queue.isEmpty then { s1 with in_service := false } else start_serviceA sizes s1

/-- The head of each MM1Simulator.run loop iteration, after event e has
been popped leaving rest: set curr_time to the event time, add
pkts_in_system * (new time - last_event_time) to the area integral, and
update last_event_time.  The popped (time, pkts_in_system) pair is also
appended to the ghost log. -/
def advanceA (e : Event) (rest : List Event) (s : StateA) : StateA :=
  { s with
    event_list := rest,
    curr_time := e.time,
    area_under_q :=
      s.area_under_q + (s.pkts_in_system : ℚ) * (e.time - s.last_event_time),
    last_event_time := e.time,
    log := s.log ++ [(e.time, s.pkts_in_system)] }

/-- One iteration of the MM1Simulator.run while loop, guarded by
total_pkts < npkts.  Popping an empty heap raises IndexError in Python;
that is the err branch. -/
def stepA (gaps sizes : ℕ → ℚ) (s : StateA) : StateA :=
  if s.total_pkts < s.npkts then
    match popMinBy Event.time s.event_list with
    | none => { s with err := true }
    | some (e, rest) =>
      match e.kind with
      | EKind.arrival => handle_arrivalA gaps sizes e (advanceA e rest s)
      | EKind.departure => handle_departureA sizes (advanceA e rest s)
  else s

/-- MM1Simulator.__init__ plus the first lines of run: the first arrival
is scheduled at the first inter-arrival draw, for pkt_id 0, and
next_pkt_id becomes 1. -/
def initA (gaps : ℕ → ℚ) (npkts : ℕ) : StateA :=
  { npkts := npkts, queue := [],
    event_list := [{ time := gaps 0, kind := EKind.arrival, pkt := 0 }],
    curr_time := 0, next_pkt_id := 1, in_service := false, total_delay := 0,
    total_pkts := 0, queue_len_record := fun _ => 0, pkts_in_system := 0,
    area_under_q := 0, last_event_time := 0, gapIdx := 1, sizeIdx := 0,
    log := [], enqIds := [], depIds := [], err := false }

/-- The MM1Simulator state after k iterations of the event loop. -/
def iterA (gaps sizes : ℕ → ℚ) (npkts k : ℕ) : StateA :=
  (stepA gaps sizes)^[k] (initA gaps npkts)

/-- MM1Simulator.print_stats lines 98 and 99: N = area_under_q /
curr_time and T = total_delay / total_pkts, with a Python float division
raising ZeroDivisionError on a zero denominator. -/
def finalStatsA (s : StateA) : Except PyErr (ℚ × ℚ) :=
  if s.curr_time = 0 then Except.error PyErr.zeroDivision
  else if s.total_pkts = 0 then Except.error PyErr.zeroDivision
  else Except.ok (s.area_under_q / s.curr_time, s.total_delay / (s.total_pkts : ℚ))

/-- Packet of 001.py: number, arrival_time, size in bytes (int-truncated
draw), and a departure_time assigned when service is scheduled. -/
structure Pkt001 where
  number : ℕ
  arrival_time : ℚ
  size : ℕ
  departure_time : Option ℚ
deriving DecidableEq

/-- Event of 001.py: (time, event_type, packet). -/
structure Ev001 where
  time : ℚ
  kind : EKind
  packet : Pkt001
deriving DecidableEq

/-- True for departure events of 001.py. -/
def Ev001.isDep (e : Ev001) : Bool :=
  match e.kind with
  | EKind.departure => true
  | EKind.arrival => false

/-- State of Simulator in 001.py.  sizes i is the int-truncated value of
the i-th random.expovariate(1 / 1250) size draw and gaps i the value of
the i-th random.expovariate(lambd) inter-arrival draw.  The queue holds
only waiting packets: the packet in service is never inserted.  The
fields log, enqIds and remIds are ghost instrumentation: log records, at
each pop, the event time and the number of packets then in the system
(in service plus waiting); enqIds records the numbers of packets
inserted into the waiting queue, in insertion order; remIds records the
numbers of packets removed from the waiting queue head, in removal
order.  They influence no control flow. -/
structure State001 where
  npkts : ℕ
  event_list : List Ev001
  queue : List Pkt001
  busy : Bool
  time : ℚ
  packet_count : ℕ
  total_delay : ℚ
  total_packets_in_system : ℕ
  pn_counter : Fin 11 → ℕ
  sizeIdx : ℕ
  gapIdx : ℕ
  log : List (ℚ × ℕ)
  enqIds : List ℕ
  remIds : List ℕ

/-- The packets carried by the pending departure events of an 001.py
event list: by the occupancy invariant this is the packet in service,
when the server is busy. -/
def depPkts (l : List Ev001) : List Pkt001 :=
  (l.filter Ev001.isDep).map (fun ev => ev.packet)

/-- The packets in the system of an 001.py state: the packet in service
(carried by its pending departure event, since 001.py never stores it in
the queue) followed by the waiting packets. -/
def inSys001 (s : State001) : List Pkt001 :=
  depPkts s.event_list ++ s.queue

/-- 001.py line 91 and 109: service_time = (packet.size * 8) /
service_rate_bps * 1e6. -/
def serviceTime001 (size : ℕ) : ℚ := ((size : ℚ) * 8) / linkRateBps * 1000000

/-- Simulator.generate_packet: draw a size and an inter-arrival gap,
build the packet with arrival_time = self.time + gap, and increment
packet_count. -/
def generate_packet001 (sizes : ℕ → ℕ) (gaps : ℕ → ℚ) (s : State001) :
    Pkt001 × State001 :=
  let size := sizes s.sizeIdx
  let ia := gaps s.gapIdx
  let p : Pkt001 := { number := s.packet_count, arrival_time := s.time + ia,
                      size := size, departure_time := none }
  (p, { s with packet_count := s.packet_count + 1,
               sizeIdx := s.sizeIdx + 1, gapIdx := s.gapIdx + 1 })

/-- The tail of Simulator.handle_arrival of 001.py: while
packet_count < npkts, generate the next packet and schedule its arrival
event (at the packet arrival time). -/
def maybeGen (sizes : ℕ → ℕ) (gaps : ℕ → ℚ) (s : State001) : State001 :=
  if s.packet_count < s.npkts then
    let g := generate_packet001 sizes gaps s
    { g.2 with event_list := g.2.event_list ++
        [({ time := g.1.arrival_time, kind := EKind.arrival, packet := g.1 } : Ev001)] }
  else s

/-- The departure event 001.py schedules when packet p starts service at
time t: it fires at t plus the service time of p, and carries p with its
departure_time field assigned to that same instant. -/
def depEv001 (t : ℚ) (p : Pkt001) : Ev001 :=
  { time := t + serviceTime001 p.size, kind := EKind.departure,
    packet := { p with departure_time := some (t + serviceTime001 p.size) } }

/-- Simulator.handle_arrival of 001.py: count num_in_system =
len(self.queue) into pn_counter[min(n, 10)], then either start service
immediately (server idle: the packet never enters the queue) or append
the packet to the waiting queue, and finally generate and schedule the
next arrival while packet_count < npkts. -/
def handle_arrival001 (sizes : ℕ → ℕ) (gaps : ℕ → ℚ) (e : Ev001) (s : State001) :
    State001 :=
  let p := e.packet
  let n := s.queue.length
  let idx : Fin 11 := ⟨min n 10, by omega⟩
  let s1 := { s with pn_counter := Function.update s.pn_counter idx (s.pn_counter idx + 1) }
  let s2 : State001 :=
    if s1.busy then { s1 with queue := s1.queue ++ [p], enqIds := s1.enqIds ++ [p.number] }
    else
      { s1 with
        busy := true,
        event_list := s1.event_list ++ [depEv001 s1.time p] }
  maybeGen sizes gaps s2

/-- Simulator.handle_departure of 001.py: fold delay = departure_time -
arrival_time of the event packet into the totals, then pop the waiting
queue head into service or mark the server idle. -/
def handle_departure001 (e : Ev001) (s : State001) : State001 :=
  let p := e.packet
  let delay := p.departure_time.getD 0 - p.arrival_time
  let s1 := { s with
    total_delay := s.total_delay + delay,
    total_packets_in_system := s.total_packets_in_system + 1 }
  match s1.queue with
  | [] => { s1 with busy := false }
  | np :: rest =>
    { s1 with
      queue := rest,
      remIds := s1.remIds ++ [np.number],
      event_list := s1.event_list ++ [depEv001 s1.time np] }

/-- The head of each 001.py loop iteration, after event e has been
popped leaving rest: set the clock to the event time and append the
popped (time, packets-in-system) pair to the ghost log. -/
def advance001 (e : Ev001) (rest : List Ev001) (s : State001) : State001 :=
  { s with
    event_list := rest,
    time := e.time,
    log := s.log ++ [(e.time, (inSys001 s).length)] }

/-- One iteration of the Simulator.run loop of 001.py.  The combined
loop condition (packet_count < npkts or event_list) with an immediate
break on an empty event list is equivalent to looping while the event
list is non-empty. -/
def step001 (sizes : ℕ → ℕ) (gaps : ℕ → ℚ) (s : State001) : State001 :=
  match popMinBy Ev001.time s.event_list with
  | none => s
  | some (e, rest) =>
    match e.kind with
    | EKind.arrival => handle_arrival001 sizes gaps e (advance001 e rest s)
    | EKind.departure => handle_departure001 e (advance001 e rest s)

/-- Simulator.__init__ of 001.py plus the priming of run: generate the
first packet and schedule its arrival. -/
def init001 (sizes : ℕ → ℕ) (gaps : ℕ → ℚ) (npkts : ℕ) : State001 :=
  let s0 : State001 :=
    { npkts := npkts, event_list := [], queue := [], busy := false, time := 0,
      packet_count := 0, total_delay := 0, total_packets_in_system := 0,
      pn_counter := fun _ => 0, sizeIdx := 0, gapIdx := 0,
      log := [], enqIds := [], remIds := [] }
  let g := generate_packet001 sizes gaps s0
  { g.2 with event_list :=
      [({ time := g.1.arrival_time, kind := EKind.arrival, packet := g.1 } : Ev001)] }

/-- The 001.py Simulator state after k iterations of the event loop. -/
def iter001 (sizes : ℕ → ℕ) (gaps : ℕ → ℚ) (npkts k : ℕ) : State001 :=
  (step001 sizes gaps)^[k] (init001 sizes gaps npkts)

/-- Simulator.print_summary lines 116 and 117 of 001.py: avg_delay =
total_delay / total_packets_in_system is computed first, then
avg_packets = total_delay / self.time; each Python float division raises
ZeroDivisionError on a zero denominator.  The returned pair is
(N, T) = (avg_packets, avg_delay), matching finalStatsA and finalStatsB. -/
def finalStats001 (s : State001) : Except PyErr (ℚ × ℚ) :=
  if s.total_packets_in_system = 0 then Except.error PyErr.zeroDivision
  else if s.time = 0 then Except.error PyErr.zeroDivision
  else Except.ok (s.total_delay / s.time,
    s.total_delay / (s.total_packets_in_system : ℚ))

/-- The sum of the arrival times of a list of packets. -/
def sumArr001 (l : List Pkt001) : ℚ := (l.map (fun p => p.arrival_time)).sum

/-- total_arrivals = sum(self.pn_counter) in Simulator.print_summary. -/
def totalArrivals001 (s : State001) : ℕ := ∑ i, s.pn_counter i

/-- The eleven probabilities printed by Simulator.print_summary:
pn_counter[n] / total_arrivals when total_arrivals > 0, else 0, for n in
0..10.  001.py has no separate overflow bucket: min(n, 10) folds all
occupancies of at least 10 into the last counter. -/
def pnProbs001 (s : State001) : List ℚ :=
  List.ofFn (fun i : Fin 11 =>
    if 0 < totalArrivals001 s then (s.pn_counter i : ℚ) / (totalArrivals001 s : ℚ) else 0)

theorem iterB_succ (trace : List (ℚ × ℚ)) (k : ℕ) :
    iterB trace (k + 1) = stepB (iterB trace k) := by
  simp [iterB, Function.iterate_succ_apply']

theorem stepB_pop_none {s : StateB} (h : popMinBy Event.time s.event_list = none) :
    stepB s = s := by
  simp [stepB, h]

theorem stepB_pop_arr {s : StateB} {e : Event} {rest : List Event}
    (h : popMinBy Event.time s.event_list = some (e, rest))
    (hk : e.kind = EKind.arrival) :
    stepB s = handle_arrivalB e (advanceB e rest s) := by
  simp [stepB, h, hk]

theorem stepB_pop_dep {s : StateB} {e : Event} {rest : List Event}
    (h : popMinBy Event.time s.event_list = some (e, rest))
    (hk : e.kind = EKind.departure) :
    stepB s = handle_departureB (advanceB e rest s) := by
  simp [stepB, h, hk]

theorem start_serviceB_nil {s : StateB} (h : s.queue = []) :
    start_serviceB s = { s with err := true } := by
  simp [start_serviceB, h]

theorem start_serviceB_cons {s : StateB} {pid : ℕ} {arr st : ℚ}
    {rest : List (ℕ × ℚ × ℚ)} (h : s.queue = (pid, arr, st) :: rest) :
    start_serviceB s = { s with
      in_service := true,
      event_list := s.event_list ++
        [{ time := s.curr_time + st, kind := EKind.departure, pkt := pid }] } := by
  simp [start_serviceB, h]

theorem start_serviceB_preserved (s : StateB) :
    (start_serviceB s).trace = s.trace ∧
    (start_serviceB s).queue = s.queue ∧
    (start_serviceB s).curr_time = s.curr_time ∧
    (start_serviceB s).total_delay = s.total_delay ∧
    (start_serviceB s).total_pkts = s.total_pkts ∧
    (start_serviceB s).pkts_in_system = s.pkts_in_system ∧
    (start_serviceB s).area_under_q = s.area_under_q ∧
    (start_serviceB s).last_event_time = s.last_event_time ∧
    (start_serviceB s).log = s.log ∧
    (start_serviceB s).enqIds = s.enqIds ∧
    (start_serviceB s).depIds = s.depIds ∧
    (start_serviceB s).queue_len_record = s.queue_len_record := by
  cases hq : s.queue with
  | nil =>
    rw [start_serviceB_nil hq]
    exact ⟨rfl, hq, rfl, rfl, rfl, rfl, rfl, rfl, rfl, rfl, rfl, rfl⟩
  | cons q r =>
    obtain ⟨pid, arr, st⟩ := q
    rw [start_serviceB_cons hq]
    exact ⟨rfl, hq, rfl, rfl, rfl, rfl, rfl, rfl, rfl, rfl, rfl, rfl⟩

theorem handle_arrivalB_busy {s : StateB} (e : Event) (h : s.in_service = true) :
    handle_arrivalB e s = { s with
      queue_len_record := Function.update s.queue_len_record (clampIdx s.pkts_in_system)
        (s.queue_len_record (clampIdx s.pkts_in_system) + 1),
      pkts_in_system := s.pkts_in_system + 1,
      queue := s.queue ++ [(e.pkt, s.curr_time, serviceTimeUs (s.trace.getD e.pkt (0, 0)).2)],
      enqIds := s.enqIds ++ [e.pkt] } := by
  simp [handle_arrivalB, h]

theorem handle_arrivalB_idle {s : StateB} (e : Event) (h : s.in_service = false) :
    handle_arrivalB e s = start_serviceB { s with
      queue_len_record := Function.update s.queue_len_record (clampIdx s.pkts_in_system)
        (s.queue_len_record (clampIdx s.pkts_in_system) + 1),
      pkts_in_system := s.pkts_in_system + 1,
      queue := s.queue ++ [(e.pkt, s.curr_time, serviceTimeUs (s.trace.getD e.pkt (0, 0)).2)],
      enqIds := s.enqIds ++ [e.pkt] } := by
  simp [handle_arrivalB, h]

theorem handle_departureB_nil {s : StateB} (h : s.queue = []) :
    handle_departureB s = { s with err := true } := by
  simp [handle_departureB, h]

theorem handle_departureB_last {s : StateB} {pid : ℕ} {arr st : ℚ}
    (h : s.queue = [(pid, arr, st)]) :
    handle_departureB s = { s with
      queue := [],
      total_delay := s.total_delay + (s.curr_time - arr),
      total_pkts := s.total_pkts + 1,
      pkts_in_system := s.pkts_in_system - 1,
      depIds := s.depIds ++ [pid],
      in_service := false } := by
  simp [handle_departureB, h]

theorem handle_departureB_more {s : StateB} {pid : ℕ} {arr st : ℚ}
    {q2 : ℕ × ℚ × ℚ} {rest2 : List (ℕ × ℚ × ℚ)}
    (h : s.queue = (pid, arr, st) :: q2 :: rest2) :
    handle_departureB s = start_serviceB { s with
      queue := q2 :: rest2,
      total_delay := s.total_delay + (s.curr_time - arr),
      total_pkts := s.total_pkts + 1,
      pkts_in_system := s.pkts_in_system - 1,
      depIds := s.depIds ++ [pid] } := by
  simp [handle_departureB, h]

theorem handle_arrivalB_trace (e : Event) (s : StateB) :
    (handle_arrivalB e s).trace = s.trace := by
  cases hb : s.in_service with
  | true => rw [handle_arrivalB_busy e hb]
  | false => rw [handle_arrivalB_idle e hb]; exact (start_serviceB_preserved _).1

theorem handle_departureB_trace (s : StateB) :
    (handle_departureB s).trace = s.trace := by
  cases hq : s.queue with
  | nil => rw [handle_departureB_nil hq]
  | cons q r =>
    obtain ⟨pid, arr, st⟩ := q
    cases r with
    | nil => rw [handle_departureB_last hq]
    | cons q2 r2 => rw [handle_departureB_more hq]; exact (start_serviceB_preserved _).1

theorem stepB_trace (s : StateB) : (stepB s).trace = s.trace := by
  cases hp : popMinBy Event.time s.event_list with
  | none => rw [stepB_pop_none hp]
  | some p =>
    obtain ⟨e, rest⟩ := p
    cases hk : e.kind with
    | arrival => rw [stepB_pop_arr hp hk, handle_arrivalB_trace]; rfl
    | departure => rw [stepB_pop_dep hp hk, handle_departureB_trace]; rfl

theorem iterB_trace (trace : List (ℚ × ℚ)) (k : ℕ) : (iterB trace k).trace = trace := by
  induction k with
  | zero => rfl
  | succ k ih => rw [iterB_succ, stepB_trace]; exact ih

theorem handle_arrivalB_queue (e : Event) (s : StateB) :
    (handle_arrivalB e s).queue =
      s.queue ++ [(e.pkt, s.curr_time, serviceTimeUs (s.trace.getD e.pkt (0, 0)).2)] := by
  cases hb : s.in_service with
  | true => rw [handle_arrivalB_busy e hb]
  | false => rw [handle_arrivalB_idle e hb]; exact (start_serviceB_preserved _).2.1

theorem handle_departureB_queue (s : StateB) :
    (handle_departureB s).queue = s.queue.tail := by
  cases hq : s.queue with
  | nil => rw [handle_departureB_nil hq]; simp [hq]
  | cons q r =>
    obtain ⟨pid, arr, st⟩ := q
    cases r with
    | nil => rw [handle_departureB_last hq]; rfl
    | cons q2 r2 =>
      rw [handle_departureB_more hq]
      exact (start_serviceB_preserved _).2.1

/-- C3 counterexample: in Lab1partA.py the service time consumed when a
packet enters service is the random draw made inside start_service (line
91), not a function of the packet and the link rate.  The two runs below
share the same npkts, the same inter-arrival draws and the same single
packet 0; only the size draw consumed at service start differs, and the
scheduled departure (the final clock value) changes, so the service time
is not a pure deterministic function of the packet size and the fixed
link rate. -/
theorem c3_service_time_randomness_cex :
    (iterA (fun _ => 1) (fun _ => 5000) 1 4).curr_time ≠
    (iterA (fun _ => 1) (fun _ => 15000) 1 4).curr_time := by
  with_unfolding_all decide

/-- C4 counterexample: on the empty trace (zero packets, zero elapsed
time) print_stats of Lab1partB.py divides area_under_q by curr_time = 0
and raises ZeroDivisionError; no sentinel result is reported. -/
theorem c4_zero_run_raises_cex :
    finalStatsB (runTraceB []) = Except.error PyErr.zeroDivision ∧
    (finalStatsB (runTraceB [])).isOk = false := by
  constructor
  · with_unfolding_all rfl
  · with_unfolding_all rfl

/-- C4 (amended): the statistics divisions of Lab1partA.py and
Lab1partB.py print_stats are unguarded: whenever the elapsed simulated
time is zero or the departed-packet count is zero, the computation raises
ZeroDivisionError (modelled as Except.error) instead of reporting an
explicit undefined sentinel. -/
theorem c4_amended_division_unguarded :
    (∀ s : StateA, s.curr_time = 0 ∨ s.total_pkts = 0 →
      finalStatsA s = Except.error PyErr.zeroDivision) ∧
    (∀ s : StateB, s.curr_time = 0 ∨ s.total_pkts = 0 →
      finalStatsB s = Except.error PyErr.zeroDivision) := by
  constructor
  · intro s h
    rcases h with h | h
    · simp [finalStatsA, h]
    · by_cases hc : s.curr_time = 0 <;> simp [finalStatsA, h, hc]
  · intro s h
    rcases h with h | h
    · simp [finalStatsB, h]
    · by_cases hc : s.curr_time = 0 <;> simp [finalStatsB, h, hc]

/-- Witness for C4 (amended): the freshly initialised TraceSimulator
state has curr_time = 0 and its statistics computation raises. -/
theorem c4_amended_division_unguarded_witness :
    (initB []).curr_time = 0 ∧
    finalStatsB (initB []) = Except.error PyErr.zeroDivision :=
  ⟨rfl, c4_amended_division_unguarded.2 (initB []) (Or.inl rfl)⟩

/-- C6: whenever at least one arrival has been recorded, the reported
per-n probabilities sum to exactly 1: in Lab1partB.py the eleven P(n)
values plus the overflow probability P(n>10), and in 001.py the eleven
P(n) values (whose last bucket absorbs all n at or above 10).  Each
probability is its counter divided by the total of all counters, so the
sum telescopes to 1 in exact arithmetic. -/
theorem c6_pn_probabilities_closure :
    (∀ s : StateB, 0 < totalArrivalsB s → (pnProbsB s).sum = 1) ∧
    (∀ s : State001, 0 < totalArrivals001 s → (pnProbs001 s).sum = 1) := by
  constructor
  · intro s h
    have hT : ((totalArrivalsB s : ℚ)) ≠ 0 := by
      exact_mod_cast Nat.pos_iff_ne_zero.mp h
    have hcast : ((totalArrivalsB s : ℚ)) = ∑ i, (s.queue_len_record i : ℚ) := by
      rw [totalArrivalsB]
      push_cast
      rfl
    rw [pnProbsB, List.sum_ofFn, ← Finset.sum_div, ← hcast, div_self hT]
  · intro s h
    have hT : ((totalArrivals001 s : ℚ)) ≠ 0 := by
      exact_mod_cast Nat.pos_iff_ne_zero.mp h
    have hcast : ((totalArrivals001 s : ℚ)) = ∑ i, (s.pn_counter i : ℚ) := by
      rw [totalArrivals001]
      push_cast
      rfl
    rw [pnProbs001]
    simp only [h, if_true]
    rw [List.sum_ofFn, ← Finset.sum_div, ← hcast, div_self hT]

/-- Witness for C6: the run of Lab1partB.py on the single-row trace
(1, 1250) records one arrival and its reported probabilities sum to 1. -/
theorem c6_pn_probabilities_closure_witness :
    0 < totalArrivalsB (runTraceB [(1, 1250)]) ∧
    (pnProbsB (runTraceB [(1, 1250)])).sum = 1 :=
  ⟨by with_unfolding_all decide,
   c6_pn_probabilities_closure.1 (runTraceB [(1, 1250)]) (by with_unfolding_all decide)⟩

/-- C2 (code bug in 001.py): in both runs below the second packet arrives
while the first is still in service with an empty waiting queue, so one
packet is in the system.  Lab1partA.py records the arrival in bucket 1 of
queue_len_record (the claim and the spec), but 001.py indexes pn_counter
by len(self.queue) alone, which excludes the in-service packet, and so
increments bucket 0 twice and bucket 1 never, although its own report
says it estimates the count an arrival finds already in the system.  The
001.py run uses npkts = 2, inter-arrival draws of 1 us and size draws of
25000 then 12500 bytes (service until t = 21, second arrival at t = 2);
the Lab1partA.py run uses npkts = 1, inter-arrival draws of 1 us and a
size draw of 10000000 bits. -/
theorem c2_pn_counter_divergence_eval :
    (iter001 (fun n => [25000, 12500].getD n 0) (fun _ => 1) 2 4).pn_counter 0 = 2 ∧
    (iter001 (fun n => [25000, 12500].getD n 0) (fun _ => 1) 2 4).pn_counter 1 = 0 ∧
    (iterA (fun _ => 1) (fun _ => 10000000) 1 2).queue_len_record 0 = 1 ∧
    (iterA (fun _ => 1) (fun _ => 10000000) 1 2).queue_len_record 1 = 1 := by
  refine ⟨?_, ?_, ?_, ?_⟩ <;> with_unfolding_all decide

/-- C7 counterexample: Lab1partB.py performs no validation of trace rows
whatsoever (the trace is read in __init__ and every row is scheduled in
run); no MalformedTrace error exists anywhere in the code.  The trace
below consists of one row with a non-positive (zero) inter-arrival time,
and the run processes it completely: the packet arrives, is served and
departs, leaving a departed count of 1 and no raised error, rather than
the run aborting. -/
theorem c7_malformed_row_processed_cex :
    (runTraceB [(0, 100)]).total_pkts = 1 ∧
    (runTraceB [(0, 100)]).err = false ∧
    (runTraceB [(0, 100)]).depIds = [0] := by
  refine ⟨?_, ?_, ?_⟩ <;> with_unfolding_all decide

/-- C7 (amended): a trace row with a non-positive inter-arrival value or
a non-positive size is processed exactly like any other row: the run
completes, the packet departs, and no error of any kind is raised.  The
hypothesis restricts the statement to the malformed rows the original
claim is about; the code never inspects the values, so the conclusion in
fact holds for every single-row trace. -/
theorem c7_amended_no_validation :
    ∀ ia sz : ℚ, ia ≤ 0 ∨ sz ≤ 0 →
      (runTraceB [(ia, sz)]).total_pkts = 1 ∧
      (runTraceB [(ia, sz)]).err = false ∧
      (runTraceB [(ia, sz)]).depIds = [0] := by
  intro ia sz _h
  have h2 : runTraceB [(ia, sz)] = stepB (stepB (initB [(ia, sz)])) := rfl
  rw [h2]
  simp [stepB, popMinBy, advanceB, handle_arrivalB, start_serviceB,
    handle_departureB, initB, primeArrivals, clampIdx, serviceTimeUs]

/-- Witness for C7 (amended): a row with inter-arrival 0 and size 0 is
malformed in both columns and still fully processed. -/
theorem c7_amended_no_validation_witness :
    ((0 : ℚ) ≤ 0 ∨ (0 : ℚ) ≤ 0) ∧
    ((runTraceB [(0, 0)]).total_pkts = 1 ∧
     (runTraceB [(0, 0)]).err = false ∧
     (runTraceB [(0, 0)]).depIds = [0]) :=
  ⟨Or.inl le_rfl, c7_amended_no_validation 0 0 (Or.inl le_rfl)⟩

theorem iterA_succ (gaps sizes : ℕ → ℚ) (npkts k : ℕ) :
    iterA gaps sizes npkts (k + 1) = stepA gaps sizes (iterA gaps sizes npkts k) := by
  simp [iterA, Function.iterate_succ_apply']

theorem stepA_stop {gaps sizes : ℕ → ℚ} {s : StateA}
    (h : ¬ s.total_pkts < s.npkts) : stepA gaps sizes s = s := by
  simp [stepA, h]

theorem stepA_pop_none {gaps sizes : ℕ → ℚ} {s : StateA}
    (hlt : s.total_pkts < s.npkts)
    (h : popMinBy Event.time s.event_list = none) :
    stepA gaps sizes s = { s with err := true } := by
  simp [stepA, hlt, h]

theorem stepA_pop_arr {gaps sizes : ℕ → ℚ} {s : StateA} {e : Event} {rest : List Event}
    (hlt : s.total_pkts < s.npkts)
    (h : popMinBy Event.time s.event_list = some (e, rest))
    (hk : e.kind = EKind.arrival) :
    stepA gaps sizes s = handle_arrivalA gaps sizes e (advanceA e rest s) := by
  simp [stepA, hlt, h, hk]

theorem stepA_pop_dep {gaps sizes : ℕ → ℚ} {s : StateA} {e : Event} {rest : List Event}
    (hlt : s.total_pkts < s.npkts)
    (h : popMinBy Event.time s.event_list = some (e, rest))
    (hk : e.kind = EKind.departure) :
    stepA gaps sizes s = handle_departureA sizes (advanceA e rest s) := by
  simp [stepA, hlt, h, hk]

theorem start_serviceA_nil {sizes : ℕ → ℚ} {s : StateA} (h : s.queue = []) :
    start_serviceA sizes s = { s with err := true } := by
  simp [start_serviceA, h]

theorem start_serviceA_cons {sizes : ℕ → ℚ} {s : StateA} {pid : ℕ} {arr : ℚ}
    {rest : List (ℕ × ℚ)} (h : s.queue = (pid, arr) :: rest) :
    start_serviceA sizes s = { s with
      in_service := true,
      sizeIdx := s.sizeIdx + 1,
      event_list := s.event_list ++
        [{ time := s.curr_time + sizes s.sizeIdx / linkRateBps * 1000000,
           kind := EKind.departure, pkt := pid }] } := by
  simp [start_serviceA, h]

theorem start_serviceA_preserved (sizes : ℕ → ℚ) (s : StateA) :
    (start_serviceA sizes s).queue = s.queue ∧
    (start_serviceA sizes s).curr_time = s.curr_time ∧
    (start_serviceA sizes s).total_delay = s.total_delay ∧
    (start_serviceA sizes s).total_pkts = s.total_pkts ∧
    (start_serviceA sizes s).pkts_in_system = s.pkts_in_system ∧
    (start_serviceA sizes s).area_under_q = s.area_under_q ∧
    (start_serviceA sizes s).last_event_time = s.last_event_time ∧
    (start_serviceA sizes s).log = s.log ∧
    (start_serviceA sizes s).enqIds = s.enqIds ∧
    (start_serviceA sizes s).depIds = s.depIds ∧
    (start_serviceA sizes s).queue_len_record = s.queue_len_record ∧
    (start_serviceA sizes s).npkts = s.npkts ∧
    (start_serviceA sizes s).next_pkt_id = s.next_pkt_id ∧
    (start_serviceA sizes s).gapIdx = s.gapIdx := by
  cases hq : s.queue with
  | nil =>
    rw [start_serviceA_nil hq]
    exact ⟨hq, rfl, rfl, rfl, rfl, rfl, rfl, rfl, rfl, rfl, rfl, rfl, rfl, rfl⟩
  | cons q r =>
    obtain ⟨pid, arr⟩ := q
    rw [start_serviceA_cons hq]
    exact ⟨hq, rfl, rfl, rfl, rfl, rfl, rfl, rfl, rfl, rfl, rfl, rfl, rfl, rfl⟩

theorem handle_arrivalA_busy {gaps sizes : ℕ → ℚ} {s : StateA} (e : Event)
    (h : s.in_service = true) :
    handle_arrivalA gaps sizes e s = { s with
      queue_len_record := Function.update s.queue_len_record (clampIdx s.pkts_in_system)
        (s.queue_len_record (clampIdx s.pkts_in_system) + 1),
      pkts_in_system := s.pkts_in_system + 1,
      event_list := s.event_list ++
        [{ time := s.curr_time + gaps s.gapIdx, kind := EKind.arrival, pkt := s.next_pkt_id }],
      next_pkt_id := s.next_pkt_id + 1,
      gapIdx := s.gapIdx + 1,
      queue := s.queue ++ [(e.pkt, s.curr_time)],
      enqIds := s.enqIds ++ [e.pkt] } := by
  simp [handle_arrivalA, h]

theorem handle_arrivalA_idle {gaps sizes : ℕ → ℚ} {s : StateA} (e : Event)
    (h : s.in_service = false) :
    handle_arrivalA gaps sizes e s = start_serviceA sizes { s with
      queue_len_record := Function.update s.queue_len_record (clampIdx s.pkts_in_system)
        (s.queue_len_record (clampIdx s.pkts_in_system) + 1),
      pkts_in_system := s.pkts_in_system + 1,
      event_list := s.event_list ++
        [{ time := s.curr_time + gaps s.gapIdx, kind := EKind.arrival, pkt := s.next_pkt_id }],
      next_pkt_id := s.next_pkt_id + 1,
      gapIdx := s.gapIdx + 1,
      queue := s.queue ++ [(e.pkt, s.curr_time)],
      enqIds := s.enqIds ++ [e.pkt] } := by
  simp [handle_arrivalA, h]

theorem handle_departureA_nil {sizes : ℕ → ℚ} {s : StateA} (h : s.queue = []) :
    handle_departureA sizes s = { s with err := true } := by
  simp [handle_departureA, h]

theorem handle_departureA_last {sizes : ℕ → ℚ} {s : StateA} {pid : ℕ} {arr : ℚ}
    (h : s.queue = [(pid, arr)]) :
    handle_departureA sizes s = { s with
      queue := [],
      total_delay := s.total_delay + (s.curr_time - arr),
      total_pkts := s.total_pkts + 1,
      pkts_in_system := s.pkts_in_system - 1,
      depIds := s.depIds ++ [pid],
      in_service := false } := by
  simp [handle_departureA, h]

theorem handle_departureA_more {sizes : ℕ → ℚ} {s : StateA} {pid : ℕ} {arr : ℚ}
    {q2 : ℕ × ℚ} {rest2 : List (ℕ × ℚ)} (h : s.queue = (pid, arr) :: q2 :: rest2) :
    handle_departureA sizes s = start_serviceA sizes { s with
      queue := q2 :: rest2,
      total_delay := s.total_delay + (s.curr_time - arr),
      total_pkts := s.total_pkts + 1,
      pkts_in_system := s.pkts_in_system - 1,
      depIds := s.depIds ++ [pid] } := by
  simp [handle_departureA, h]

theorem advanceB_fields (e : Event) (rest : List Event) (s : StateB) :
    (advanceB e rest s).area_under_q =
      s.area_under_q + (s.pkts_in_system : ℚ) * (e.time - s.last_event_time) ∧
    (advanceB e rest s).last_event_time = e.time ∧
    (advanceB e rest s).log = s.log ++ [(e.time, s.pkts_in_system)] ∧
    (advanceB e rest s).curr_time = e.time ∧
    (advanceB e rest s).event_list = rest :=
  ⟨rfl, rfl, rfl, rfl, rfl⟩

theorem advanceA_fields (e : Event) (rest : List Event) (s : StateA) :
    (advanceA e rest s).area_under_q =
      s.area_under_q + (s.pkts_in_system : ℚ) * (e.time - s.last_event_time) ∧
    (advanceA e rest s).last_event_time = e.time ∧
    (advanceA e rest s).log = s.log ++ [(e.time, s.pkts_in_system)] ∧
    (advanceA e rest s).curr_time = e.time ∧
    (advanceA e rest s).event_list = rest :=
  ⟨rfl, rfl, rfl, rfl, rfl⟩

theorem handle_arrivalB_ghost (e : Event) (s : StateB) :
    (handle_arrivalB e s).area_under_q = s.area_under_q ∧
    (handle_arrivalB e s).last_event_time = s.last_event_time ∧
    (handle_arrivalB e s).log = s.log := by
  cases hb : s.in_service with
  | true => rw [handle_arrivalB_busy e hb]; exact ⟨rfl, rfl, rfl⟩
  | false =>
    rw [handle_arrivalB_idle e hb]
    obtain ⟨_, _, _, _, _, _, ha, hl, hg, _, _, _⟩ := start_serviceB_preserved _
    exact ⟨ha, hl, hg⟩

theorem handle_departureB_ghost (s : StateB) :
    (handle_departureB s).area_under_q = s.area_under_q ∧
    (handle_departureB s).last_event_time = s.last_event_time ∧
    (handle_departureB s).log = s.log := by
  cases hq : s.queue with
  | nil => rw [handle_departureB_nil hq]; exact ⟨rfl, rfl, rfl⟩
  | cons q r =>
    obtain ⟨pid, arr, st⟩ := q
    cases r with
    | nil => rw [handle_departureB_last hq]; exact ⟨rfl, rfl, rfl⟩
    | cons q2 r2 =>
      rw [handle_departureB_more hq]
      obtain ⟨_, _, _, _, _, _, ha, hl, hg, _, _, _⟩ := start_serviceB_preserved _
      exact ⟨ha, hl, hg⟩

theorem handle_arrivalA_ghost (gaps sizes : ℕ → ℚ) (e : Event) (s : StateA) :
    (handle_arrivalA gaps sizes e s).area_under_q = s.area_under_q ∧
    (handle_arrivalA gaps sizes e s).last_event_time = s.last_event_time ∧
    (handle_arrivalA gaps sizes e s).log = s.log := by
  cases hb : s.in_service with
  | true => rw [handle_arrivalA_busy e hb]; exact ⟨rfl, rfl, rfl⟩
  | false =>
    rw [handle_arrivalA_idle e hb]
    obtain ⟨_, _, _, _, _, ha, hl, hg, _, _, _, _, _, _⟩ := start_serviceA_preserved sizes _
    exact ⟨ha, hl, hg⟩

theorem handle_departureA_ghost (sizes : ℕ → ℚ) (s : StateA) :
    (handle_departureA sizes s).area_under_q = s.area_under_q ∧
    (handle_departureA sizes s).last_event_time = s.last_event_time ∧
    (handle_departureA sizes s).log = s.log := by
  cases hq : s.queue with
  | nil => rw [handle_departureA_nil hq]; exact ⟨rfl, rfl, rfl⟩
  | cons q r =>
    obtain ⟨pid, arr⟩ := q
    cases r with
    | nil => rw [handle_departureA_last hq]; exact ⟨rfl, rfl, rfl⟩
    | cons q2 r2 =>
      rw [handle_departureA_more hq]
      obtain ⟨_, _, _, _, _, ha, hl, hg, _, _, _, _, _, _⟩ := start_serviceA_preserved sizes _
      exact ⟨ha, hl, hg⟩

/-- The time-weighted area under the step function described by a log of
(event time, value-before-the-event) pairs, integrated from anchor time
t0: each entry (t, n) contributes n * (t - previous time). -/
def integralFrom : ℚ → List (ℚ × ℕ) → ℚ
  | _, [] => 0
  | t0, (t, n) :: rest => (n : ℚ) * (t - t0) + integralFrom t rest

/-- The time of the last log entry, or the anchor t0 for an empty log. -/
def lastTimeD (t0 : ℚ) (l : List (ℚ × ℕ)) : ℚ :=
  match l.getLast? with
  | none => t0
  | some p => p.1

theorem lastTimeD_append_single (t0 t : ℚ) (n : ℕ) (l : List (ℚ × ℕ)) :
    lastTimeD t0 (l ++ [(t, n)]) = t := by
  simp [lastTimeD, List.getLast?_concat]

theorem lastTimeD_cons (t0 t1 : ℚ) (n1 : ℕ) (l : List (ℚ × ℕ)) :
    lastTimeD t0 ((t1, n1) :: l) = lastTimeD t1 l := by
  cases l with
  | nil => simp [lastTimeD]
  | cons a l2 =>
    rw [lastTimeD, lastTimeD, List.getLast?_cons_cons]
    cases hg : (a :: l2).getLast? with
    | none => simp at hg
    | some p => rfl

theorem integralFrom_append_single :
    ∀ (l : List (ℚ × ℕ)) (t0 t : ℚ) (n : ℕ),
      integralFrom t0 (l ++ [(t, n)]) =
        integralFrom t0 l + (n : ℚ) * (t - lastTimeD t0 l) := by
  intro l
  induction l with
  | nil => intro t0 t n; simp [integralFrom, lastTimeD]
  | cons a l2 ih =>
    intro t0 t n
    obtain ⟨t1, n1⟩ := a
    rw [List.cons_append]
    simp only [integralFrom]
    rw [ih, lastTimeD_cons]
    ring

/-- Along every TraceSimulator run the accumulated area_under_q equals
the time-weighted area under the packets-in-system step function
described by the popped-event log, and last_event_time is the last
popped time. -/
theorem areaInvB (trace : List (ℚ × ℚ)) (k : ℕ) :
    (iterB trace k).area_under_q = integralFrom 0 (iterB trace k).log ∧
    (iterB trace k).last_event_time = lastTimeD 0 (iterB trace k).log := by
  induction k with
  | zero => exact ⟨rfl, rfl⟩
  | succ k ih =>
    rw [iterB_succ]
    cases hp : popMinBy Event.time (iterB trace k).event_list with
    | none => rw [stepB_pop_none hp]; exact ih
    | some p =>
      obtain ⟨e, rest⟩ := p
      cases hk : e.kind with
      | arrival =>
        rw [stepB_pop_arr hp hk]
        obtain ⟨ha, hl, hg⟩ := handle_arrivalB_ghost e (advanceB e rest (iterB trace k))
        rw [ha, hl, hg]
        obtain ⟨fa, fl, fg, _, _⟩ := advanceB_fields e rest (iterB trace k)
        rw [fa, fl, fg]
        refine ⟨?_, ?_⟩
        · rw [integralFrom_append_single, ih.1, ih.2]
        · rw [lastTimeD_append_single]
      | departure =>
        rw [stepB_pop_dep hp hk]
        obtain ⟨ha, hl, hg⟩ := handle_departureB_ghost (advanceB e rest (iterB trace k))
        rw [ha, hl, hg]
        obtain ⟨fa, fl, fg, _, _⟩ := advanceB_fields e rest (iterB trace k)
        rw [fa, fl, fg]
        refine ⟨?_, ?_⟩
        · rw [integralFrom_append_single, ih.1, ih.2]
        · rw [lastTimeD_append_single]

/-- Along every MM1Simulator run the accumulated area_under_q equals the
time-weighted area under the packets-in-system step function described
by the popped-event log, and last_event_time is the last popped time. -/
theorem areaInvA (gaps sizes : ℕ → ℚ) (npkts k : ℕ) :
    (iterA gaps sizes npkts k).area_under_q =
      integralFrom 0 (iterA gaps sizes npkts k).log ∧
    (iterA gaps sizes npkts k).last_event_time =
      lastTimeD 0 (iterA gaps sizes npkts k).log := by
  induction k with
  | zero => exact ⟨rfl, rfl⟩
  | succ k ih =>
    rw [iterA_succ]
    by_cases hlt : (iterA gaps sizes npkts k).total_pkts < (iterA gaps sizes npkts k).npkts
    · cases hp : popMinBy Event.time (iterA gaps sizes npkts k).event_list with
      | none => rw [stepA_pop_none hlt hp]; exact ih
      | some p =>
        obtain ⟨e, rest⟩ := p
        cases hk : e.kind with
        | arrival =>
          rw [stepA_pop_arr hlt hp hk]
          obtain ⟨ha, hl, hg⟩ :=
            handle_arrivalA_ghost gaps sizes e (advanceA e rest (iterA gaps sizes npkts k))
          rw [ha, hl, hg]
          obtain ⟨fa, fl, fg, _, _⟩ := advanceA_fields e rest (iterA gaps sizes npkts k)
          rw [fa, fl, fg]
          refine ⟨?_, ?_⟩
          · rw [integralFrom_append_single, ih.1, ih.2]
          · rw [lastTimeD_append_single]
        | departure =>
          rw [stepA_pop_dep hlt hp hk]
          obtain ⟨ha, hl, hg⟩ :=
            handle_departureA_ghost sizes (advanceA e rest (iterA gaps sizes npkts k))
          rw [ha, hl, hg]
          obtain ⟨fa, fl, fg, _, _⟩ := advanceA_fields e rest (iterA gaps sizes npkts k)
          rw [fa, fl, fg]
          refine ⟨?_, ?_⟩
          · rw [integralFrom_append_single, ih.1, ih.2]
          · rw [lastTimeD_append_single]
    · rw [stepA_stop hlt]; exact ih

theorem start_serviceA_countArr (sizes : ℕ → ℚ) (t : StateA) :
    (start_serviceA sizes t).event_list.countP Event.isArr =
      t.event_list.countP Event.isArr := by
  cases hq : t.queue with
  | nil => rw [start_serviceA_nil hq]
  | cons q r =>
    obtain ⟨pid, arr⟩ := q
    rw [start_serviceA_cons hq]
    simp [List.countP_append, Event.isArr]

theorem handle_arrivalA_countArr (gaps sizes : ℕ → ℚ) (e : Event) (s : StateA) :
    (handle_arrivalA gaps sizes e s).event_list.countP Event.isArr =
      s.event_list.countP Event.isArr + 1 := by
  cases hb : s.in_service with
  | true =>
    rw [handle_arrivalA_busy e hb]
    simp [List.countP_append, Event.isArr]
  | false =>
    rw [handle_arrivalA_idle e hb, start_serviceA_countArr]
    simp [List.countP_append, Event.isArr]

theorem handle_departureA_countArr (sizes : ℕ → ℚ) (s : StateA) :
    (handle_departureA sizes s).event_list.countP Event.isArr =
      s.event_list.countP Event.isArr := by
  cases hq : s.queue with
  | nil => rw [handle_departureA_nil hq]
  | cons q r =>
    obtain ⟨pid, arr⟩ := q
    cases r with
    | nil => rw [handle_departureA_last hq]
    | cons q2 r2 => rw [handle_departureA_more hq, start_serviceA_countArr]

/-- In every reachable MM1Simulator state exactly one arrival event is
pending: the first arrival is primed before the loop, and every processed
arrival schedules its successor before its handler returns. -/
theorem arrCountInvA (gaps sizes : ℕ → ℚ) (npkts k : ℕ) :
    (iterA gaps sizes npkts k).event_list.countP Event.isArr = 1 := by
  induction k with
  | zero => simp [iterA, initA, Event.isArr]
  | succ k ih =>
    rw [iterA_succ]
    by_cases hlt : (iterA gaps sizes npkts k).total_pkts < (iterA gaps sizes npkts k).npkts
    · cases hp : popMinBy Event.time (iterA gaps sizes npkts k).event_list with
      | none => rw [stepA_pop_none hlt hp]; exact ih
      | some p =>
        obtain ⟨e, rest⟩ := p
        have hcount := popMinBy_countP Event.time _ e rest Event.isArr hp
        rw [ih, List.countP_cons] at hcount
        cases hk : e.kind with
        | arrival =>
          have hisarr : Event.isArr e = true := by simp [Event.isArr, hk]
          rw [hisarr, if_pos rfl] at hcount
          have hrest : rest.countP Event.isArr = 0 := by omega
          rw [stepA_pop_arr hlt hp hk, handle_arrivalA_countArr]
          have hadv : (advanceA e rest (iterA gaps sizes npkts k)).event_list = rest :=
            (advanceA_fields e rest (iterA gaps sizes npkts k)).2.2.2.2
          rw [hadv, hrest]
        | departure =>
          have hisarr : Event.isArr e = false := by simp [Event.isArr, hk]
          rw [hisarr, if_neg Bool.false_ne_true] at hcount
          have hrest : rest.countP Event.isArr = 1 := by omega
          rw [stepA_pop_dep hlt hp hk, handle_departureA_countArr]
          have hadv : (advanceA e rest (iterA gaps sizes npkts k)).event_list = rest :=
            (advanceA_fields e rest (iterA gaps sizes npkts k)).2.2.2.2
          rw [hadv, hrest]
    · rw [stepA_stop hlt]; exact ih

/-- C10: in the count-bounded synthetic simulator (Lab1partA.py) the
event list holds exactly one pending arrival in every reachable state,
hence is never empty, so heappop in the main loop never hits the
empty-heap error branch: the first arrival is scheduled before the loop
and every processed arrival schedules the next arrival before its handler
returns. -/
theorem c10_event_list_nonempty :
    ∀ (gaps sizes : ℕ → ℚ) (npkts k : ℕ),
      (iterA gaps sizes npkts k).event_list.countP Event.isArr = 1 ∧
      (iterA gaps sizes npkts k).event_list ≠ [] := by
  intro gaps sizes npkts k
  have h := arrCountInvA gaps sizes npkts k
  refine ⟨h, ?_⟩
  intro hnil
  rw [hnil] at h
  simp at h

theorem lastTimeD_eq_none {l : List (ℚ × ℕ)} (t0 : ℚ) (h : l.getLast? = none) :
    lastTimeD t0 l = t0 := by
  simp [lastTimeD, h]

theorem lastTimeD_eq_some {l : List (ℚ × ℕ)} {p : ℚ × ℕ} (t0 : ℚ)
    (h : l.getLast? = some p) : lastTimeD t0 l = p.1 := by
  simp [lastTimeD, h]

theorem handle_arrivalA_curr (gaps sizes : ℕ → ℚ) (e : Event) (s : StateA) :
    (handle_arrivalA gaps sizes e s).curr_time = s.curr_time := by
  cases hb : s.in_service with
  | true => rw [handle_arrivalA_busy e hb]
  | false => rw [handle_arrivalA_idle e hb]; exact (start_serviceA_preserved sizes _).2.1

theorem handle_departureA_curr (sizes : ℕ → ℚ) (s : StateA) :
    (handle_departureA sizes s).curr_time = s.curr_time := by
  cases hq : s.queue with
  | nil => rw [handle_departureA_nil hq]
  | cons q r =>
    obtain ⟨pid, arr⟩ := q
    cases r with
    | nil => rw [handle_departureA_last hq]
    | cons q2 r2 =>
      rw [handle_departureA_more hq]
      exact (start_serviceA_preserved sizes _).2.1

theorem start_serviceA_events (sizes : ℕ → ℚ) (t : StateA) :
    ∀ f ∈ (start_serviceA sizes t).event_list,
      f ∈ t.event_list ∨ f.time = t.curr_time + sizes t.sizeIdx / linkRateBps * 1000000 := by
  cases hq : t.queue with
  | nil => rw [start_serviceA_nil hq]; intro f hf; exact Or.inl hf
  | cons q r =>
    obtain ⟨pid, arr⟩ := q
    rw [start_serviceA_cons hq]
    intro f hf
    rcases List.mem_append.mp hf with h | h
    · exact Or.inl h
    · simp at h
      subst h
      exact Or.inr rfl

theorem handle_arrivalA_events (gaps sizes : ℕ → ℚ) (e : Event) (s : StateA) :
    ∀ f ∈ (handle_arrivalA gaps sizes e s).event_list,
      f ∈ s.event_list ∨ f.time = s.curr_time + gaps s.gapIdx ∨
        f.time = s.curr_time + sizes s.sizeIdx / linkRateBps * 1000000 := by
  cases hb : s.in_service with
  | true =>
    rw [handle_arrivalA_busy e hb]
    intro f hf
    rcases List.mem_append.mp hf with h | h
    · exact Or.inl h
    · simp at h
      subst h
      exact Or.inr (Or.inl rfl)
  | false =>
    rw [handle_arrivalA_idle e hb]
    intro f hf
    rcases start_serviceA_events sizes _ f hf with h | h
    · rcases List.mem_append.mp h with h2 | h2
      · exact Or.inl h2
      · simp at h2
        subst h2
        exact Or.inr (Or.inl rfl)
    · exact Or.inr (Or.inr h)

theorem handle_departureA_events (sizes : ℕ → ℚ) (s : StateA) :
    ∀ f ∈ (handle_departureA sizes s).event_list,
      f ∈ s.event_list ∨ f.time = s.curr_time + sizes s.sizeIdx / linkRateBps * 1000000 := by
  cases hq : s.queue with
  | nil => rw [handle_departureA_nil hq]; intro f hf; exact Or.inl hf
  | cons q r =>
    obtain ⟨pid, arr⟩ := q
    cases r with
    | nil => rw [handle_departureA_last hq]; intro f hf; exact Or.inl hf
    | cons q2 r2 =>
      rw [handle_departureA_more hq]
      intro f hf
      have h2 := start_serviceA_events sizes _ f hf
      rcases h2 with h | h
      · exact Or.inl h
      · exact Or.inr h

/-- With nonnegative inter-arrival and size draws, every reachable
MM1Simulator state satisfies: pending events lie at or after the clock,
the last logged time is at or before the clock, the logged pop times form
a nondecreasing chain, and the clock is nonnegative. -/
theorem timeInvA (gaps sizes : ℕ → ℚ) (hg : ∀ n, 0 ≤ gaps n) (hs : ∀ n, 0 ≤ sizes n)
    (npkts k : ℕ) :
    (∀ f ∈ (iterA gaps sizes npkts k).event_list,
       (iterA gaps sizes npkts k).curr_time ≤ f.time) ∧
    lastTimeD 0 (iterA gaps sizes npkts k).log ≤ (iterA gaps sizes npkts k).curr_time ∧
    List.Chain' (fun a b => a ≤ b) ((iterA gaps sizes npkts k).log.map Prod.fst) ∧
    0 ≤ (iterA gaps sizes npkts k).curr_time := by
  have hsvc : ∀ j, (0 : ℚ) ≤ sizes j / linkRateBps * 1000000 := by
    intro j
    have h1 : (0 : ℚ) ≤ sizes j / linkRateBps :=
      div_nonneg (hs j) (by norm_num [linkRateBps])
    exact mul_nonneg h1 (by norm_num)
  induction k with
  | zero =>
    refine ⟨?_, ?_, ?_, le_refl 0⟩
    · intro f hf
      simp [iterA, initA] at hf
      subst hf
      exact hg 0
    · exact le_refl 0
    · exact List.chain'_nil
  | succ k ih =>
    obtain ⟨ihE, ihL, ihC, ihP⟩ := ih
    rw [iterA_succ]
    by_cases hlt : (iterA gaps sizes npkts k).total_pkts < (iterA gaps sizes npkts k).npkts
    · cases hp : popMinBy Event.time (iterA gaps sizes npkts k).event_list with
      | none => rw [stepA_pop_none hlt hp]; exact ⟨ihE, ihL, ihC, ihP⟩
      | some p =>
        obtain ⟨e, rest⟩ := p
        have hce : (iterA gaps sizes npkts k).curr_time ≤ e.time :=
          ihE e (popMinBy_mem Event.time _ e rest hp)
        have hrest : ∀ f ∈ rest, e.time ≤ f.time := fun f hf =>
          popMinBy_min Event.time _ e rest hp f (popMinBy_rest_subset Event.time _ e rest hp f hf)
        have hchain : List.Chain' (fun a b => a ≤ b)
            (((iterA gaps sizes npkts k).log ++
              [(e.time, (iterA gaps sizes npkts k).pkts_in_system)]).map Prod.fst) := by
          rw [List.map_append]
          rw [List.chain'_append]
          refine ⟨ihC, List.chain'_singleton _, ?_⟩
          intro x hx y hy
          simp at hy
          subst hy
          rw [List.getLast?_map] at hx
          cases hl : (iterA gaps sizes npkts k).log.getLast? with
          | none => rw [hl] at hx; simp at hx
          | some q =>
            rw [hl] at hx
            simp at hx
            subst hx
            calc q.1 = lastTimeD 0 (iterA gaps sizes npkts k).log :=
                  (lastTimeD_eq_some 0 hl).symm
              _ ≤ (iterA gaps sizes npkts k).curr_time := ihL
              _ ≤ e.time := hce
        have hlast : lastTimeD 0
            ((iterA gaps sizes npkts k).log ++
              [(e.time, (iterA gaps sizes npkts k).pkts_in_system)]) = e.time :=
          lastTimeD_append_single 0 e.time _ _
        cases hk : e.kind with
        | arrival =>
          rw [stepA_pop_arr hlt hp hk]
          have hcurr := handle_arrivalA_curr gaps sizes e (advanceA e rest (iterA gaps sizes npkts k))
          obtain ⟨hga, hgl, hgg⟩ :=
            handle_arrivalA_ghost gaps sizes e (advanceA e rest (iterA gaps sizes npkts k))
          refine ⟨?_, ?_, ?_, ?_⟩
          · intro f hf
            rw [hcurr]
            rcases handle_arrivalA_events gaps sizes e _ f hf with h | h | h
            · exact hrest f h
            · rw [h]
              exact le_add_of_nonneg_right (hg _)
            · rw [h]
              exact le_add_of_nonneg_right (hsvc _)
          · rw [hcurr, hgg]
            exact le_of_eq hlast
          · rw [hgg]
            exact hchain
          · rw [hcurr]
            exact le_trans ihP hce
        | departure =>
          rw [stepA_pop_dep hlt hp hk]
          have hcurr := handle_departureA_curr sizes (advanceA e rest (iterA gaps sizes npkts k))
          obtain ⟨hga, hgl, hgg⟩ :=
            handle_departureA_ghost sizes (advanceA e rest (iterA gaps sizes npkts k))
          refine ⟨?_, ?_, ?_, ?_⟩
          · intro f hf
            rw [hcurr]
            rcases handle_departureA_events sizes _ f hf with h | h
            · exact hrest f h
            · rw [h]
              exact le_add_of_nonneg_right (hsvc _)
          · rw [hcurr, hgg]
            exact le_of_eq hlast
          · rw [hgg]
            exact hchain
          · rw [hcurr]
            exact le_trans ihP hce
    · rw [stepA_stop hlt]
      exact ⟨ihE, ihL, ihC, ihP⟩

/-- C5: in every MM1Simulator run whose random draws are nonnegative (as
the exponential variates of the source always are), the sequence of event
times popped from the heap, recorded in the ghost log, is nondecreasing:
any two consecutively popped events satisfy first time at most second
time.  Consequently the simulation clock, set to each popped time, never
decreases from one loop iteration to the next. -/
theorem c5_popped_times_monotone :
    ∀ (gaps sizes : ℕ → ℚ) (npkts k : ℕ),
      (∀ n, 0 ≤ gaps n) → (∀ n, 0 ≤ sizes n) →
      List.Chain' (fun a b => a ≤ b) ((iterA gaps sizes npkts k).log.map Prod.fst) ∧
      (iterA gaps sizes npkts k).curr_time ≤ (iterA gaps sizes npkts (k + 1)).curr_time := by
  intro gaps sizes npkts k hg hs
  obtain ⟨ihE, _, ihC, _⟩ := timeInvA gaps sizes hg hs npkts k
  refine ⟨ihC, ?_⟩
  rw [iterA_succ]
  by_cases hlt : (iterA gaps sizes npkts k).total_pkts < (iterA gaps sizes npkts k).npkts
  · cases hp : popMinBy Event.time (iterA gaps sizes npkts k).event_list with
    | none => rw [stepA_pop_none hlt hp]
    | some p =>
      obtain ⟨e, rest⟩ := p
      have hce : (iterA gaps sizes npkts k).curr_time ≤ e.time :=
        ihE e (popMinBy_mem Event.time _ e rest hp)
      cases hk : e.kind with
      | arrival =>
        rw [stepA_pop_arr hlt hp hk, handle_arrivalA_curr]
        exact hce
      | departure =>
        rw [stepA_pop_dep hlt hp hk, handle_departureA_curr]
        exact hce
  · rw [stepA_stop hlt]

/-- Witness for C5: a concrete run with all draws equal to 1 (npkts = 2,
three loop iterations). -/
theorem c5_popped_times_monotone_witness :
    List.Chain' (fun a b => a ≤ b)
      ((iterA (fun _ => 1) (fun _ => 1) 2 3).log.map Prod.fst) ∧
    (iterA (fun _ => 1) (fun _ => 1) 2 3).curr_time ≤
      (iterA (fun _ => 1) (fun _ => 1) 2 4).curr_time :=
  c5_popped_times_monotone (fun _ => 1) (fun _ => 1) 2 3
    (fun _ => zero_le_one) (fun _ => zero_le_one)

theorem handle_arrivalB_ids (e : Event) (s : StateB) :
    (handle_arrivalB e s).enqIds = s.enqIds ++ [e.pkt] ∧
    (handle_arrivalB e s).depIds = s.depIds := by
  cases hb : s.in_service with
  | true => rw [handle_arrivalB_busy e hb]; exact ⟨rfl, rfl⟩
  | false =>
    rw [handle_arrivalB_idle e hb]
    obtain ⟨_, _, _, _, _, _, _, _, _, he, hd, _⟩ := start_serviceB_preserved _
    exact ⟨he, hd⟩

theorem handle_arrivalA_ids (gaps sizes : ℕ → ℚ) (e : Event) (s : StateA) :
    (handle_arrivalA gaps sizes e s).enqIds = s.enqIds ++ [e.pkt] ∧
    (handle_arrivalA gaps sizes e s).depIds = s.depIds ∧
    (handle_arrivalA gaps sizes e s).queue = s.queue ++ [(e.pkt, s.curr_time)] := by
  cases hb : s.in_service with
  | true => rw [handle_arrivalA_busy e hb]; exact ⟨rfl, rfl, rfl⟩
  | false =>
    rw [handle_arrivalA_idle e hb]
    obtain ⟨hquu, _, _, _, _, _, _, _, he, hd, _, _, _, _⟩ := start_serviceA_preserved sizes _
    exact ⟨he, hd, hquu⟩

/-- Along every TraceSimulator run the ghost enqueue order equals the
ghost departure order followed by the ids of the packets still waiting:
departures remove exactly the oldest enqueued packets, in order. -/
theorem fifoInvB (trace : List (ℚ × ℚ)) (k : ℕ) :
    (iterB trace k).enqIds =
      (iterB trace k).depIds ++ (iterB trace k).queue.map (fun q => q.1) := by
  induction k with
  | zero => rfl
  | succ k ih =>
    rw [iterB_succ]
    cases hp : popMinBy Event.time (iterB trace k).event_list with
    | none => rw [stepB_pop_none hp]; exact ih
    | some p =>
      obtain ⟨e, rest⟩ := p
      cases hk : e.kind with
      | arrival =>
        rw [stepB_pop_arr hp hk]
        obtain ⟨he, hd⟩ := handle_arrivalB_ids e (advanceB e rest (iterB trace k))
        rw [he, hd, handle_arrivalB_queue, List.map_append]
        have ih2 : (advanceB e rest (iterB trace k)).enqIds =
            (advanceB e rest (iterB trace k)).depIds ++
              (advanceB e rest (iterB trace k)).queue.map (fun q => q.1) := ih
        rw [ih2, List.append_assoc]
        rfl
      | departure =>
        rw [stepB_pop_dep hp hk]
        cases hq : (iterB trace k).queue with
        | nil =>
          have hq2 : (advanceB e rest (iterB trace k)).queue = [] := hq
          rw [handle_departureB_nil hq2]
          exact ih
        | cons q r =>
          obtain ⟨pid, arr, st⟩ := q
          cases r with
          | nil =>
            have hq2 : (advanceB e rest (iterB trace k)).queue = [(pid, arr, st)] := hq
            rw [handle_departureB_last hq2]
            show (iterB trace k).enqIds =
              ((iterB trace k).depIds ++ [pid]) ++
                List.map (fun q => q.1) ([] : List (ℕ × ℚ × ℚ))
            rw [ih, hq]
            simp
          | cons q2 r2 =>
            have hq2 : (advanceB e rest (iterB trace k)).queue =
              (pid, arr, st) :: q2 :: r2 := hq
            rw [handle_departureB_more hq2]
            obtain ⟨_, hquu, _, _, _, _, _, _, _, he, hd, _⟩ := start_serviceB_preserved _
            rw [he, hd, hquu]
            show (iterB trace k).enqIds =
              ((iterB trace k).depIds ++ [pid]) ++ List.map (fun q => q.1) (q2 :: r2)
            rw [ih, hq]
            simp

/-- Along every MM1Simulator run the ghost enqueue order equals the ghost
departure order followed by the ids of the packets still waiting. -/
theorem fifoInvA (gaps sizes : ℕ → ℚ) (npkts k : ℕ) :
    (iterA gaps sizes npkts k).enqIds =
      (iterA gaps sizes npkts k).depIds ++
        (iterA gaps sizes npkts k).queue.map (fun q => q.1) := by
  induction k with
  | zero => rfl
  | succ k ih =>
    rw [iterA_succ]
    by_cases hlt : (iterA gaps sizes npkts k).total_pkts < (iterA gaps sizes npkts k).npkts
    · cases hp : popMinBy Event.time (iterA gaps sizes npkts k).event_list with
      | none => rw [stepA_pop_none hlt hp]; exact ih
      | some p =>
        obtain ⟨e, rest⟩ := p
        cases hk : e.kind with
        | arrival =>
          rw [stepA_pop_arr hlt hp hk]
          obtain ⟨he, hd, hqu⟩ :=
            handle_arrivalA_ids gaps sizes e (advanceA e rest (iterA gaps sizes npkts k))
          rw [he, hd, hqu, List.map_append]
          have ih2 : (advanceA e rest (iterA gaps sizes npkts k)).enqIds =
              (advanceA e rest (iterA gaps sizes npkts k)).depIds ++
                (advanceA e rest (iterA gaps sizes npkts k)).queue.map (fun q => q.1) := ih
          rw [ih2, List.append_assoc]
          rfl
        | departure =>
          rw [stepA_pop_dep hlt hp hk]
          cases hq : (iterA gaps sizes npkts k).queue with
          | nil =>
            have hq2 : (advanceA e rest (iterA gaps sizes npkts k)).queue = [] := hq
            rw [handle_departureA_nil hq2]
            exact ih
          | cons q r =>
            obtain ⟨pid, arr⟩ := q
            cases r with
            | nil =>
              have hq2 : (advanceA e rest (iterA gaps sizes npkts k)).queue = [(pid, arr)] := hq
              rw [handle_departureA_last hq2]
              show (iterA gaps sizes npkts k).enqIds =
                ((iterA gaps sizes npkts k).depIds ++ [pid]) ++
                  List.map (fun q => q.1) ([] : List (ℕ × ℚ))
              rw [ih, hq]
              simp
            | cons q2 r2 =>
              have hq2 : (advanceA e rest (iterA gaps sizes npkts k)).queue =
                (pid, arr) :: q2 :: r2 := hq
              rw [handle_departureA_more hq2]
              obtain ⟨hquu, _, _, _, _, _, _, _, he, hd, _, _, _, _⟩ :=
                start_serviceA_preserved sizes _
              rw [he, hd, hquu]
              show (iterA gaps sizes npkts k).enqIds =
                ((iterA gaps sizes npkts k).depIds ++ [pid]) ++
                  List.map (fun q => q.1) (q2 :: r2)
              rw [ih, hq]
              simp
    · rw [stepA_stop hlt]; exact ih

theorem isDep_of_kind_dep {e : Event} (hk : e.kind = EKind.departure) :
    e.isDep = true := by
  simp [Event.isDep, hk]

theorem isDep_of_kind_arr {e : Event} (hk : e.kind = EKind.arrival) :
    e.isDep = false := by
  simp [Event.isDep, hk]

theorem primeArrivals_no_dep :
    ∀ (t : ℚ) (i : ℕ) (tr : List (ℚ × ℚ)) (e : Event),
      e ∈ primeArrivals t i tr → e.isDep = false := by
  intro t i tr
  induction tr generalizing t i with
  | nil => intro e he; simp [primeArrivals] at he
  | cons row rest ih =>
    intro e he
    obtain ⟨ia, sz⟩ := row
    rcases List.mem_cons.mp he with heq | hmem
    · subst heq; rfl
    · exact ih _ _ e hmem

/-- The single-server occupancy invariant of the TraceSimulator: an idle
server means empty queue and no pending departure; a busy server means
exactly one pending departure; and every pending departure event names
the packet at the head of the waiting queue. -/
def SrvB (s : StateB) : Prop :=
  (s.in_service = false → s.queue = [] ∧ s.event_list.countP Event.isDep = 0) ∧
  (s.in_service = true → s.event_list.countP Event.isDep = 1) ∧
  (∀ e ∈ s.event_list, e.isDep = true →
    s.queue.head?.map (fun q => q.1) = some e.pkt)

theorem srvInvB (trace : List (ℚ × ℚ)) (k : ℕ) : SrvB (iterB trace k) := by
  induction k with
  | zero =>
    refine ⟨fun _ => ⟨rfl, ?_⟩, fun h => ?_, fun e he hdep => ?_⟩
    · rw [List.countP_eq_zero]
      intro e he
      simp [primeArrivals_no_dep 0 0 trace e he]
    · exact absurd h (by simp [initB, iterB])
    · exact absurd hdep (by simp [primeArrivals_no_dep 0 0 trace e he])
  | succ k ih =>
    obtain ⟨inv1, inv2, inv3⟩ := ih
    rw [iterB_succ]
    cases hp : popMinBy Event.time (iterB trace k).event_list with
    | none => rw [stepB_pop_none hp]; exact ⟨inv1, inv2, inv3⟩
    | some p =>
      obtain ⟨e, rest⟩ := p
      have hcount := popMinBy_countP Event.time _ e rest Event.isDep hp
      have hsub := popMinBy_rest_subset Event.time _ e rest hp
      cases hk : e.kind with
      | arrival =>
        have hde : Event.isDep e = false := isDep_of_kind_arr hk
        have hrest : rest.countP Event.isDep = (iterB trace k).event_list.countP Event.isDep := by
          rw [hcount, List.countP_cons, hde]
          simp
        rw [stepB_pop_arr hp hk]
        cases hb : (iterB trace k).in_service with
        | true =>
          have hb2 : (advanceB e rest (iterB trace k)).in_service = true := hb
          rw [handle_arrivalB_busy e hb2]
          refine ⟨fun h => Bool.noConfusion (hb.symm.trans h), fun _ => ?_, ?_⟩
          · show rest.countP Event.isDep = 1
            rw [hrest]
            exact inv2 hb
          · intro f hf hdep
            have h3 := inv3 f (hsub f hf) hdep
            show ((iterB trace k).queue ++
              [(e.pkt, (advanceB e rest (iterB trace k)).curr_time,
                serviceTimeUs ((advanceB e rest (iterB trace k)).trace.getD e.pkt (0, 0)).2)]).head?.map
                (fun q => q.1) = some f.pkt
            cases hq : (iterB trace k).queue with
            | nil => rw [hq] at h3; simp at h3
            | cons q0 r0 =>
              rw [hq] at h3
              simpa using h3
        | false =>
          have hb2 : (advanceB e rest (iterB trace k)).in_service = false := hb
          obtain ⟨hqnil, hcnt0⟩ := inv1 hb
          have hrest0 : rest.countP Event.isDep = 0 := by rw [hrest]; exact hcnt0
          rw [handle_arrivalB_idle e hb2]
          have hq2 : ({ (advanceB e rest (iterB trace k)) with
              queue_len_record := Function.update
                ((advanceB e rest (iterB trace k)).queue_len_record)
                (clampIdx (advanceB e rest (iterB trace k)).pkts_in_system)
                ((advanceB e rest (iterB trace k)).queue_len_record
                  (clampIdx (advanceB e rest (iterB trace k)).pkts_in_system) + 1),
              pkts_in_system := (advanceB e rest (iterB trace k)).pkts_in_system + 1,
              queue := (advanceB e rest (iterB trace k)).queue ++
                [(e.pkt, (advanceB e rest (iterB trace k)).curr_time,
                  serviceTimeUs ((advanceB e rest (iterB trace k)).trace.getD e.pkt (0, 0)).2)],
              enqIds := (advanceB e rest (iterB trace k)).enqIds ++ [e.pkt] } : StateB).queue =
              (e.pkt, (advanceB e rest (iterB trace k)).curr_time,
                serviceTimeUs ((advanceB e rest (iterB trace k)).trace.getD e.pkt (0, 0)).2) :: [] := by
            show (iterB trace k).queue ++ [_] = _
            rw [hqnil]
            rfl
          rw [start_serviceB_cons hq2]
          refine ⟨fun h => Bool.noConfusion h, fun _ => ?_, ?_⟩
          · show (rest ++ [_]).countP Event.isDep = 1
            rw [List.countP_append, hrest0]
            simp [Event.isDep]
          · intro f hf hdep
            have hf2 : f ∈ rest ++ [_] := hf
            rcases List.mem_append.mp hf2 with hmem | hnew
            · exact absurd hdep (by
                simp [List.countP_eq_zero.mp hrest0 f hmem])
            · simp at hnew
              subst hnew
              have hqnil2 : (advanceB e rest (iterB trace k)).queue = [] := hqnil
              simp [hqnil2]
      | departure =>
        have hde : Event.isDep e = true := isDep_of_kind_dep hk
        have hbusy : (iterB trace k).in_service = true := by
          cases hb : (iterB trace k).in_service with
          | true => rfl
          | false =>
            obtain ⟨_, hcnt0⟩ := inv1 hb
            have : 0 < (iterB trace k).event_list.countP Event.isDep :=
              List.countP_pos.mpr ⟨e, popMinBy_mem Event.time _ e rest hp, hde⟩
            omega
        have hrest0 : rest.countP Event.isDep = 0 := by
          have h1 := inv2 hbusy
          rw [hcount, List.countP_cons, hde, if_pos rfl] at h1
          omega
        have h3 := inv3 e (popMinBy_mem Event.time _ e rest hp) hde
        rw [stepB_pop_dep hp hk]
        cases hq : (iterB trace k).queue with
        | nil => rw [hq] at h3; simp at h3
        | cons q0 qr =>
          obtain ⟨pid, arr, st⟩ := q0
          have hpid : pid = e.pkt := by
            rw [hq] at h3
            simpa using h3
          cases qr with
          | nil =>
            have hq2 : (advanceB e rest (iterB trace k)).queue = [(pid, arr, st)] := hq
            rw [handle_departureB_last hq2]
            refine ⟨fun _ => ⟨rfl, hrest0⟩, fun h => Bool.noConfusion h, ?_⟩
            intro f hf hdep
            exact absurd hdep (by simp [List.countP_eq_zero.mp hrest0 f hf])
          | cons q2 r2 =>
            have hq2 : (advanceB e rest (iterB trace k)).queue =
              (pid, arr, st) :: q2 :: r2 := hq
            rw [handle_departureB_more hq2]
            obtain ⟨pid2, arr2, st2⟩ := q2
            have hq3 : ({ (advanceB e rest (iterB trace k)) with
                queue := (pid2, arr2, st2) :: r2,
                total_delay := (advanceB e rest (iterB trace k)).total_delay +
                  ((advanceB e rest (iterB trace k)).curr_time - arr),
                total_pkts := (advanceB e rest (iterB trace k)).total_pkts + 1,
                pkts_in_system := (advanceB e rest (iterB trace k)).pkts_in_system - 1,
                depIds := (advanceB e rest (iterB trace k)).depIds ++ [pid] } : StateB).queue =
                (pid2, arr2, st2) :: r2 := rfl
            rw [start_serviceB_cons hq3]
            refine ⟨fun h => Bool.noConfusion h, fun _ => ?_, ?_⟩
            · show (rest ++ [_]).countP Event.isDep = 1
              rw [List.countP_append, hrest0]
              simp [Event.isDep]
            · intro f hf hdep
              have hf2 : f ∈ rest ++ [_] := hf
              rcases List.mem_append.mp hf2 with hmem | hnew
              · exact absurd hdep (by
                  simp [List.countP_eq_zero.mp hrest0 f hmem])
              · simp at hnew
                subst hnew
                rfl

/-- The single-server occupancy invariant of the MM1Simulator, as SrvB. -/
def SrvA (s : StateA) : Prop :=
  (s.in_service = false → s.queue = [] ∧ s.event_list.countP Event.isDep = 0) ∧
  (s.in_service = true → s.event_list.countP Event.isDep = 1) ∧
  (∀ e ∈ s.event_list, e.isDep = true →
    s.queue.head?.map (fun q => q.1) = some e.pkt)

theorem srvInvA (gaps sizes : ℕ → ℚ) (npkts k : ℕ) :
    SrvA (iterA gaps sizes npkts k) := by
  induction k with
  | zero =>
    refine ⟨fun _ => ⟨rfl, rfl⟩, fun h => ?_, fun e he hdep => ?_⟩
    · exact absurd h (by simp [initA, iterA])
    · have he2 : e ∈ [({ time := gaps 0, kind := EKind.arrival, pkt := 0 } : Event)] := he
      simp at he2
      subst he2
      exact absurd hdep (by simp [Event.isDep])
  | succ k ih =>
    obtain ⟨inv1, inv2, inv3⟩ := ih
    rw [iterA_succ]
    by_cases hlt : (iterA gaps sizes npkts k).total_pkts < (iterA gaps sizes npkts k).npkts
    · cases hp : popMinBy Event.time (iterA gaps sizes npkts k).event_list with
      | none => rw [stepA_pop_none hlt hp]; exact ⟨inv1, inv2, inv3⟩
      | some p =>
        obtain ⟨e, rest⟩ := p
        have hcount := popMinBy_countP Event.time _ e rest Event.isDep hp
        have hsub := popMinBy_rest_subset Event.time _ e rest hp
        cases hk : e.kind with
        | arrival =>
          have hde : Event.isDep e = false := isDep_of_kind_arr hk
          have hrest : rest.countP Event.isDep =
              (iterA gaps sizes npkts k).event_list.countP Event.isDep := by
            rw [hcount, List.countP_cons, hde]
            simp
          rw [stepA_pop_arr hlt hp hk]
          cases hb : (iterA gaps sizes npkts k).in_service with
          | true =>
            have hb2 : (advanceA e rest (iterA gaps sizes npkts k)).in_service = true := hb
            rw [handle_arrivalA_busy e hb2]
            refine ⟨fun h => Bool.noConfusion (hb.symm.trans h), fun _ => ?_, ?_⟩
            · show (rest ++ [_]).countP Event.isDep = 1
              rw [List.countP_append, hrest]
              simp [Event.isDep, inv2 hb]
            · intro f hf hdep
              have hf2 : f ∈ rest ++
                [({ time := (advanceA e rest (iterA gaps sizes npkts k)).curr_time +
                      gaps (advanceA e rest (iterA gaps sizes npkts k)).gapIdx,
                    kind := EKind.arrival,
                    pkt := (advanceA e rest (iterA gaps sizes npkts k)).next_pkt_id } : Event)] := hf
              rcases List.mem_append.mp hf2 with hmem | hnew
              · have h3 := inv3 f (hsub f hmem) hdep
                show ((iterA gaps sizes npkts k).queue ++
                  [(e.pkt, (advanceA e rest (iterA gaps sizes npkts k)).curr_time)]).head?.map
                    (fun q => q.1) = some f.pkt
                cases hq : (iterA gaps sizes npkts k).queue with
                | nil => rw [hq] at h3; simp at h3
                | cons q0 r0 =>
                  rw [hq] at h3
                  simpa using h3
              · simp at hnew
                subst hnew
                exact absurd hdep (by simp [Event.isDep])
          | false =>
            have hb2 : (advanceA e rest (iterA gaps sizes npkts k)).in_service = false := hb
            obtain ⟨hqnil, hcnt0⟩ := inv1 hb
            have hrest0 : rest.countP Event.isDep = 0 := by rw [hrest]; exact hcnt0
            rw [handle_arrivalA_idle e hb2]
            have hq2 : ({ (advanceA e rest (iterA gaps sizes npkts k)) with
                queue_len_record := Function.update
                  ((advanceA e rest (iterA gaps sizes npkts k)).queue_len_record)
                  (clampIdx (advanceA e rest (iterA gaps sizes npkts k)).pkts_in_system)
                  ((advanceA e rest (iterA gaps sizes npkts k)).queue_len_record
                    (clampIdx (advanceA e rest (iterA gaps sizes npkts k)).pkts_in_system) + 1),
                pkts_in_system := (advanceA e rest (iterA gaps sizes npkts k)).pkts_in_system + 1,
                event_list := (advanceA e rest (iterA gaps sizes npkts k)).event_list ++
                  [({ time := (advanceA e rest (iterA gaps sizes npkts k)).curr_time +
                        gaps (advanceA e rest (iterA gaps sizes npkts k)).gapIdx,
                      kind := EKind.arrival,
                      pkt := (advanceA e rest (iterA gaps sizes npkts k)).next_pkt_id } : Event)],
                next_pkt_id := (advanceA e rest (iterA gaps sizes npkts k)).next_pkt_id + 1,
                gapIdx := (advanceA e rest (iterA gaps sizes npkts k)).gapIdx + 1,
                queue := (advanceA e rest (iterA gaps sizes npkts k)).queue ++
                  [(e.pkt, (advanceA e rest (iterA gaps sizes npkts k)).curr_time)],
                enqIds := (advanceA e rest (iterA gaps sizes npkts k)).enqIds ++ [e.pkt] } :
                  StateA).queue =
                (e.pkt, (advanceA e rest (iterA gaps sizes npkts k)).curr_time) :: [] := by
              show (iterA gaps sizes npkts k).queue ++ [_] = _
              rw [hqnil]
              rfl
            rw [start_serviceA_cons hq2]
            refine ⟨fun h => Bool.noConfusion h, fun _ => ?_, ?_⟩
            · show ((rest ++ [_]) ++ [_]).countP Event.isDep = 1
              rw [List.countP_append, List.countP_append, hrest0]
              simp [Event.isDep]
            · intro f hf hdep
              have hf2 : f ∈ (rest ++ [_]) ++ [_] := hf
              rcases List.mem_append.mp hf2 with hmem | hnew
              · rcases List.mem_append.mp hmem with hmem2 | hnew2
                · exact absurd hdep (by
                    simp [List.countP_eq_zero.mp hrest0 f hmem2])
                · simp at hnew2
                  subst hnew2
                  exact absurd hdep (by simp [Event.isDep])
              · simp at hnew
                subst hnew
                have hqnil2 : (advanceA e rest (iterA gaps sizes npkts k)).queue = [] := hqnil
                simp [hqnil2]
        | departure =>
          have hde : Event.isDep e = true := isDep_of_kind_dep hk
          have hbusy : (iterA gaps sizes npkts k).in_service = true := by
            cases hb : (iterA gaps sizes npkts k).in_service with
            | true => rfl
            | false =>
              obtain ⟨_, hcnt0⟩ := inv1 hb
              have : 0 < (iterA gaps sizes npkts k).event_list.countP Event.isDep :=
                List.countP_pos.mpr ⟨e, popMinBy_mem Event.time _ e rest hp, hde⟩
              omega
          have hrest0 : rest.countP Event.isDep = 0 := by
            have h1 := inv2 hbusy
            rw [hcount, List.countP_cons, hde, if_pos rfl] at h1
            omega
          have h3 := inv3 e (popMinBy_mem Event.time _ e rest hp) hde
          rw [stepA_pop_dep hlt hp hk]
          cases hq : (iterA gaps sizes npkts k).queue with
          | nil => rw [hq] at h3; simp at h3
          | cons q0 qr =>
            obtain ⟨pid, arr⟩ := q0
            cases qr with
            | nil =>
              have hq2 : (advanceA e rest (iterA gaps sizes npkts k)).queue = [(pid, arr)] := hq
              rw [handle_departureA_last hq2]
              refine ⟨fun _ => ⟨rfl, hrest0⟩, fun h => Bool.noConfusion h, ?_⟩
              intro f hf hdep
              exact absurd hdep (by simp [List.countP_eq_zero.mp hrest0 f hf])
            | cons q2 r2 =>
              have hq2 : (advanceA e rest (iterA gaps sizes npkts k)).queue =
                (pid, arr) :: q2 :: r2 := hq
              rw [handle_departureA_more hq2]
              obtain ⟨pid2, arr2⟩ := q2
              have hq3 : ({ (advanceA e rest (iterA gaps sizes npkts k)) with
                  queue := (pid2, arr2) :: r2,
                  total_delay := (advanceA e rest (iterA gaps sizes npkts k)).total_delay +
                    ((advanceA e rest (iterA gaps sizes npkts k)).curr_time - arr),
                  total_pkts := (advanceA e rest (iterA gaps sizes npkts k)).total_pkts + 1,
                  pkts_in_system :=
                    (advanceA e rest (iterA gaps sizes npkts k)).pkts_in_system - 1,
                  depIds := (advanceA e rest (iterA gaps sizes npkts k)).depIds ++ [pid] } :
                    StateA).queue = (pid2, arr2) :: r2 := rfl
              rw [start_serviceA_cons hq3]
              refine ⟨fun h => Bool.noConfusion h, fun _ => ?_, ?_⟩
              · show (rest ++ [_]).countP Event.isDep = 1
                rw [List.countP_append, hrest0]
                simp [Event.isDep]
              · intro f hf hdep
                have hf2 : f ∈ rest ++ [_] := hf
                rcases List.mem_append.mp hf2 with hmem | hnew
                · exact absurd hdep (by
                    simp [List.countP_eq_zero.mp hrest0 f hmem])
                · simp at hnew
                  subst hnew
                  rfl
    · rw [stepA_stop hlt]; exact ⟨inv1, inv2, inv3⟩

/-- C9: in every reachable state of Lab1partB.py and Lab1partA.py at most
one departure event is pending in the event queue (a departure is
scheduled only at service start), and whenever the next popped event is a
departure, the packet it refers to is exactly the head of the waiting
queue, so handle_departure popping the queue head removes the departing
packet. -/
theorem c9_single_pending_departure :
    (∀ (trace : List (ℚ × ℚ)) (k : ℕ),
      (iterB trace k).event_list.countP Event.isDep ≤ 1 ∧
      (∀ e rest, popMinBy Event.time (iterB trace k).event_list = some (e, rest) →
        e.isDep = true →
        (iterB trace k).queue.head?.map (fun q => q.1) = some e.pkt)) ∧
    (∀ (gaps sizes : ℕ → ℚ) (npkts k : ℕ),
      (iterA gaps sizes npkts k).event_list.countP Event.isDep ≤ 1 ∧
      (∀ e rest, popMinBy Event.time (iterA gaps sizes npkts k).event_list = some (e, rest) →
        e.isDep = true →
        (iterA gaps sizes npkts k).queue.head?.map (fun q => q.1) = some e.pkt)) := by
  constructor
  · intro trace k
    obtain ⟨inv1, inv2, inv3⟩ := srvInvB trace k
    refine ⟨?_, ?_⟩
    · cases hb : (iterB trace k).in_service with
      | false => exact le_trans (le_of_eq (inv1 hb).2) (Nat.zero_le 1)
      | true => exact le_of_eq (inv2 hb)
    · intro e rest hp hdep
      exact inv3 e (popMinBy_mem Event.time _ e rest hp) hdep
  · intro gaps sizes npkts k
    obtain ⟨inv1, inv2, inv3⟩ := srvInvA gaps sizes npkts k
    refine ⟨?_, ?_⟩
    · cases hb : (iterA gaps sizes npkts k).in_service with
      | false => exact le_trans (le_of_eq (inv1 hb).2) (Nat.zero_le 1)
      | true => exact le_of_eq (inv2 hb)
    · intro e rest hp hdep
      exact inv3 e (popMinBy_mem Event.time _ e rest hp) hdep

/-- Witness for C9: after one step of the trace run on (1, 1250) the only
pending event is the departure of packet 0 at t = 2, and the queue head
is packet 0. -/
theorem c9_single_pending_departure_witness :
    popMinBy Event.time (iterB [(1, 1250)] 1).event_list =
      some ({ time := 2, kind := EKind.departure, pkt := 0 }, []) ∧
    (iterB [(1, 1250)] 1).queue.head?.map (fun q => q.1) = some 0 :=
  ⟨by with_unfolding_all decide,
   (c9_single_pending_departure.1 [(1, 1250)] 1).2
     { time := 2, kind := EKind.departure, pkt := 0 } []
     (by with_unfolding_all decide) rfl⟩

/-- Witness for C10: a concrete instantiation of the invariant. -/
theorem c10_event_list_nonempty_witness :
    (iterA (fun _ => 1) (fun _ => 1) 2 3).event_list.countP Event.isArr = 1 ∧
    (iterA (fun _ => 1) (fun _ => 1) 2 3).event_list ≠ [] :=
  c10_event_list_nonempty (fun _ => 1) (fun _ => 1) 2 3

theorem iter001_succ (sizes : ℕ → ℕ) (gaps : ℕ → ℚ) (npkts k : ℕ) :
    iter001 sizes gaps npkts (k + 1) = step001 sizes gaps (iter001 sizes gaps npkts k) := by
  simp [iter001, Function.iterate_succ_apply']

theorem step001_pop_none {sizes : ℕ → ℕ} {gaps : ℕ → ℚ} {s : State001}
    (h : popMinBy Ev001.time s.event_list = none) :
    step001 sizes gaps s = s := by
  simp [step001, h]

theorem step001_pop_arr {sizes : ℕ → ℕ} {gaps : ℕ → ℚ} {s : State001} {e : Ev001}
    {rest : List Ev001} (h : popMinBy Ev001.time s.event_list = some (e, rest))
    (hk : e.kind = EKind.arrival) :
    step001 sizes gaps s = handle_arrival001 sizes gaps e (advance001 e rest s) := by
  simp [step001, h, hk]

theorem step001_pop_dep {sizes : ℕ → ℕ} {gaps : ℕ → ℚ} {s : State001} {e : Ev001}
    {rest : List Ev001} (h : popMinBy Ev001.time s.event_list = some (e, rest))
    (hk : e.kind = EKind.departure) :
    step001 sizes gaps s = handle_departure001 e (advance001 e rest s) := by
  simp [step001, h, hk]

theorem maybeGen_pos {sizes : ℕ → ℕ} {gaps : ℕ → ℚ} {s : State001}
    (h : s.packet_count < s.npkts) :
    maybeGen sizes gaps s = { s with
      packet_count := s.packet_count + 1,
      sizeIdx := s.sizeIdx + 1,
      gapIdx := s.gapIdx + 1,
      event_list := s.event_list ++
        [({ time := s.time + gaps s.gapIdx, kind := EKind.arrival,
            packet := { number := s.packet_count, arrival_time := s.time + gaps s.gapIdx,
                        size := sizes s.sizeIdx, departure_time := none } } : Ev001)] } := by
  simp [maybeGen, generate_packet001, h]

theorem maybeGen_neg {sizes : ℕ → ℕ} {gaps : ℕ → ℚ} {s : State001}
    (h : ¬ s.packet_count < s.npkts) :
    maybeGen sizes gaps s = s := by
  simp [maybeGen, h]

theorem maybeGen_preserved (sizes : ℕ → ℕ) (gaps : ℕ → ℚ) (s : State001) :
    (maybeGen sizes gaps s).queue = s.queue ∧
    (maybeGen sizes gaps s).busy = s.busy ∧
    (maybeGen sizes gaps s).time = s.time ∧
    (maybeGen sizes gaps s).total_delay = s.total_delay ∧
    (maybeGen sizes gaps s).total_packets_in_system = s.total_packets_in_system ∧
    (maybeGen sizes gaps s).log = s.log ∧
    (maybeGen sizes gaps s).enqIds = s.enqIds ∧
    (maybeGen sizes gaps s).remIds = s.remIds := by
  by_cases h : s.packet_count < s.npkts
  · rw [maybeGen_pos h]
    exact ⟨rfl, rfl, rfl, rfl, rfl, rfl, rfl, rfl⟩
  · rw [maybeGen_neg h]
    exact ⟨rfl, rfl, rfl, rfl, rfl, rfl, rfl, rfl⟩

theorem maybeGen_filter (sizes : ℕ → ℕ) (gaps : ℕ → ℚ) (s : State001) :
    (maybeGen sizes gaps s).event_list.filter Ev001.isDep =
      s.event_list.filter Ev001.isDep := by
  by_cases h : s.packet_count < s.npkts
  · rw [maybeGen_pos h]
    simp [List.filter_append, Ev001.isDep]
  · rw [maybeGen_neg h]

theorem maybeGen_events (sizes : ℕ → ℕ) (gaps : ℕ → ℚ) (s : State001) :
    ∀ ev ∈ (maybeGen sizes gaps s).event_list,
      ev ∈ s.event_list ∨
        (ev.kind = EKind.arrival ∧ ev.time = ev.packet.arrival_time) := by
  by_cases h : s.packet_count < s.npkts
  · rw [maybeGen_pos h]
    intro ev hev
    rcases List.mem_append.mp hev with h2 | h2
    · exact Or.inl h2
    · simp at h2
      subst h2
      exact Or.inr ⟨rfl, rfl⟩
  · rw [maybeGen_neg h]
    intro ev hev
    exact Or.inl hev

theorem ha001_busy {sizes : ℕ → ℕ} {gaps : ℕ → ℚ} {s : State001} (e : Ev001)
    (h : s.busy = true) :
    handle_arrival001 sizes gaps e s = maybeGen sizes gaps { s with
      pn_counter := Function.update s.pn_counter (⟨min s.queue.length 10, by omega⟩ : Fin 11)
        (s.pn_counter (⟨min s.queue.length 10, by omega⟩ : Fin 11) + 1),
      queue := s.queue ++ [e.packet],
      enqIds := s.enqIds ++ [e.packet.number] } := by
  simp [handle_arrival001, h]

theorem ha001_idle {sizes : ℕ → ℕ} {gaps : ℕ → ℚ} {s : State001} (e : Ev001)
    (h : s.busy = false) :
    handle_arrival001 sizes gaps e s = maybeGen sizes gaps { s with
      pn_counter := Function.update s.pn_counter (⟨min s.queue.length 10, by omega⟩ : Fin 11)
        (s.pn_counter (⟨min s.queue.length 10, by omega⟩ : Fin 11) + 1),
      busy := true,
      event_list := s.event_list ++ [depEv001 s.time e.packet] } := by
  simp [handle_arrival001, h]

theorem hd001_nil {s : State001} (e : Ev001) (h : s.queue = []) :
    handle_departure001 e s = { s with
      total_delay := s.total_delay + (e.packet.departure_time.getD 0 - e.packet.arrival_time),
      total_packets_in_system := s.total_packets_in_system + 1,
      busy := false } := by
  simp [handle_departure001, h]

theorem hd001_cons {s : State001} {np : Pkt001} {rq : List Pkt001} (e : Ev001)
    (h : s.queue = np :: rq) :
    handle_departure001 e s = { s with
      total_delay := s.total_delay + (e.packet.departure_time.getD 0 - e.packet.arrival_time),
      total_packets_in_system := s.total_packets_in_system + 1,
      queue := rq,
      remIds := s.remIds ++ [np.number],
      event_list := s.event_list ++ [depEv001 s.time np] } := by
  simp [handle_departure001, h]

/-- Along every 001.py run the ghost waiting-queue insertion order equals
the ghost removal order followed by the numbers of the packets still
waiting: Queue.remove pops the front, so the waiting sequence is
consumed in insertion order. -/
theorem fifoInv001 (sizes : ℕ → ℕ) (gaps : ℕ → ℚ) (npkts k : ℕ) :
    (iter001 sizes gaps npkts k).enqIds =
      (iter001 sizes gaps npkts k).remIds ++
        (iter001 sizes gaps npkts k).queue.map (fun p => p.number) := by
  induction k with
  | zero => rfl
  | succ k ih =>
    rw [iter001_succ]
    cases hp : popMinBy Ev001.time (iter001 sizes gaps npkts k).event_list with
    | none => rw [step001_pop_none hp]; exact ih
    | some p =>
      obtain ⟨e, rest⟩ := p
      cases hk : e.kind with
      | arrival =>
        cases hb : (iter001 sizes gaps npkts k).busy with
        | true =>
          have hb2 : (advance001 e rest (iter001 sizes gaps npkts k)).busy = true := hb
          rw [step001_pop_arr hp hk, ha001_busy e hb2]
          obtain ⟨hq, _, _, _, _, _, he, hr⟩ := maybeGen_preserved sizes gaps _
          rw [hq, he, hr]
          show (iter001 sizes gaps npkts k).enqIds ++ [e.packet.number] =
            (iter001 sizes gaps npkts k).remIds ++
              ((iter001 sizes gaps npkts k).queue ++ [e.packet]).map (fun p => p.number)
          rw [List.map_append, ih, List.append_assoc]
          rfl
        | false =>
          have hb2 : (advance001 e rest (iter001 sizes gaps npkts k)).busy = false := hb
          rw [step001_pop_arr hp hk, ha001_idle e hb2]
          obtain ⟨hq, _, _, _, _, _, he, hr⟩ := maybeGen_preserved sizes gaps _
          rw [hq, he, hr]
          exact ih
      | departure =>
        cases hq : (iter001 sizes gaps npkts k).queue with
        | nil =>
          have hq2 : (advance001 e rest (iter001 sizes gaps npkts k)).queue = [] := hq
          rw [step001_pop_dep hp hk, hd001_nil e hq2]
          exact ih
        | cons np rq =>
          have hq2 : (advance001 e rest (iter001 sizes gaps npkts k)).queue = np :: rq := hq
          rw [step001_pop_dep hp hk, hd001_cons e hq2]
          show (iter001 sizes gaps npkts k).enqIds =
            ((iter001 sizes gaps npkts k).remIds ++ [np.number]) ++
              rq.map (fun p => p.number)
          rw [ih, hq]
          simp

theorem isDep001_of_dep {e : Ev001} (hk : e.kind = EKind.departure) :
    e.isDep = true := by
  simp [Ev001.isDep, hk]

theorem isDep001_of_arr {e : Ev001} (hk : e.kind = EKind.arrival) :
    e.isDep = false := by
  simp [Ev001.isDep, hk]

theorem sumArr001_append (l1 l2 : List Pkt001) :
    sumArr001 (l1 ++ l2) = sumArr001 l1 + sumArr001 l2 := by
  simp [sumArr001]

theorem depPkts_append (l1 l2 : List Ev001) :
    depPkts (l1 ++ l2) = depPkts l1 ++ depPkts l2 := by
  simp [depPkts, List.filter_append]

theorem maybeGen_countP (sizes : ℕ → ℕ) (gaps : ℕ → ℚ) (s : State001) :
    (maybeGen sizes gaps s).event_list.countP Ev001.isDep =
      s.event_list.countP Ev001.isDep := by
  rw [List.countP_eq_length_filter, List.countP_eq_length_filter, maybeGen_filter]

theorem maybeGen_inSys (sizes : ℕ → ℕ) (gaps : ℕ → ℚ) (s : State001) :
    inSys001 (maybeGen sizes gaps s) = inSys001 s := by
  rw [inSys001, inSys001, depPkts, depPkts, maybeGen_filter,
    (maybeGen_preserved sizes gaps s).1]

/-- The 001.py run invariant: occupancy (idle means empty queue and no
pending departure, busy means exactly one pending departure), event-time
consistency (an arrival event fires at its packet arrival time, a
departure event at its packet assigned departure time), and the sojourn
identity: the step-function integral recorded in the ghost log equals
the accumulated delay of departed packets plus, for each packet still in
the system, the time it has been there so far. -/
def Inv001 (s : State001) : Prop :=
  (s.busy = false → s.queue = [] ∧ s.event_list.countP Ev001.isDep = 0) ∧
  (s.busy = true → s.event_list.countP Ev001.isDep = 1) ∧
  (∀ ev ∈ s.event_list, ev.kind = EKind.arrival → ev.time = ev.packet.arrival_time) ∧
  (∀ ev ∈ s.event_list, ev.kind = EKind.departure →
    ev.packet.departure_time = some ev.time) ∧
  (integralFrom 0 s.log =
    s.total_delay + ((inSys001 s).length : ℚ) * s.time - sumArr001 (inSys001 s)) ∧
  lastTimeD 0 s.log = s.time

theorem sumArr001_nil : sumArr001 [] = 0 := rfl

theorem sumArr001_cons (p : Pkt001) (l : List Pkt001) :
    sumArr001 (p :: l) = p.arrival_time + sumArr001 l := by
  simp [sumArr001]

theorem inv001_maybeGen (sizes : ℕ → ℕ) (gaps : ℕ → ℚ) (s : State001)
    (h : Inv001 s) : Inv001 (maybeGen sizes gaps s) := by
  obtain ⟨h1, h2, h3, h4, h5, h6⟩ := h
  obtain ⟨mq, mb, mt, md, mc, ml, me', mr⟩ := maybeGen_preserved sizes gaps s
  refine ⟨?_, ?_, ?_, ?_, ?_, ?_⟩
  · intro hb
    rw [mb] at hb
    rw [mq, maybeGen_countP]
    exact h1 hb
  · intro hb
    rw [mb] at hb
    rw [maybeGen_countP]
    exact h2 hb
  · intro ev hev hk
    rcases maybeGen_events sizes gaps s ev hev with hm | ⟨_, ht⟩
    · exact h3 ev hm hk
    · exact ht
  · intro ev hev hk
    rcases maybeGen_events sizes gaps s ev hev with hm | ⟨hka, _⟩
    · exact h4 ev hm hk
    · exact absurd hk (by simp [hka])
  · rw [ml, mt, md, maybeGen_inSys]
    exact h5
  · rw [ml, mt]
    exact h6

theorem depPkts_single_dep (t : ℚ) (p : Pkt001) :
    depPkts [depEv001 t p] = [(depEv001 t p).packet] := rfl

theorem inv001_step (sizes : ℕ → ℕ) (gaps : ℕ → ℚ) (s : State001)
    (ih : Inv001 s) : Inv001 (step001 sizes gaps s) := by
  obtain ⟨inv1, inv2, inv3, inv4, inv5, inv6⟩ := ih
  cases hp : popMinBy Ev001.time s.event_list with
  | none => rw [step001_pop_none hp]; exact ⟨inv1, inv2, inv3, inv4, inv5, inv6⟩
  | some p =>
    obtain ⟨e, rest⟩ := p
    have hperm := popMinBy_perm Ev001.time _ e rest hp
    have hsub := popMinBy_rest_subset Ev001.time _ e rest hp
    have hmemE := popMinBy_mem Ev001.time _ e rest hp
    cases hk : e.kind with
    | arrival =>
      have hde : Ev001.isDep e = false := isDep001_of_arr hk
      have hArrTime : e.time = e.packet.arrival_time := inv3 e hmemE hk
      have hcnt : s.event_list.countP Ev001.isDep = rest.countP Ev001.isDep := by
        rw [popMinBy_countP Ev001.time _ e rest Ev001.isDep hp, List.countP_cons, hde]
        simp
      have hdcons : depPkts (e :: rest) = depPkts rest := by
        simp [depPkts, List.filter_cons, hde]
      have hdp : (depPkts s.event_list).Perm (depPkts rest) := by
        have h1 : (depPkts s.event_list).Perm (depPkts (e :: rest)) :=
          (hperm.filter _).map _
        rw [hdcons] at h1
        exact h1
      have hlen : (depPkts s.event_list).length = (depPkts rest).length := hdp.length_eq
      have hsumA : sumArr001 (depPkts s.event_list) = sumArr001 (depPkts rest) := by
        rw [sumArr001, sumArr001]
        exact (hdp.map (fun p => p.arrival_time)).sum_eq
      cases hb : s.busy with
      | true =>
        have hb2 : (advance001 e rest s).busy = true := hb
        rw [step001_pop_arr hp hk, ha001_busy e hb2]
        apply inv001_maybeGen
        refine ⟨?_, ?_, ?_, ?_, ?_, ?_⟩
        · intro h
          exact Bool.noConfusion (hb.symm.trans h)
        · intro _
          show rest.countP Ev001.isDep = 1
          rw [← hcnt]
          exact inv2 hb
        · intro ev hev hk2
          exact inv3 ev (hsub ev hev) hk2
        · intro ev hev hk2
          exact inv4 ev (hsub ev hev) hk2
        · show integralFrom 0 (s.log ++ [(e.time, (inSys001 s).length)]) =
            s.total_delay +
              ((depPkts rest ++ (s.queue ++ [e.packet])).length : ℚ) * e.time -
              sumArr001 (depPkts rest ++ (s.queue ++ [e.packet]))
          rw [integralFrom_append_single, inv5, inv6, inSys001, List.length_append,
            sumArr001_append, hlen, hsumA, List.length_append, List.length_append,
            sumArr001_append, sumArr001_append, sumArr001_cons, sumArr001_nil,
            ← hArrTime]
          simp only [List.length_singleton]
          push_cast
          ring
        · show lastTimeD 0 (s.log ++ [(e.time, (inSys001 s).length)]) = e.time
          exact lastTimeD_append_single 0 e.time _ _
      | false =>
        have hb2 : (advance001 e rest s).busy = false := hb
        obtain ⟨hqnil, hcnt0⟩ := inv1 hb
        have hrest0 : rest.countP Ev001.isDep = 0 := by rw [← hcnt]; exact hcnt0
        have hdpr0 : depPkts rest = [] := by
          have h1 : rest.filter Ev001.isDep = [] := by
            have h2 := hrest0
            rw [List.countP_eq_length_filter] at h2
            exact List.length_eq_zero.mp h2
          rw [depPkts, h1]
          rfl
        have hdps0 : depPkts s.event_list = [] := by
          have h1 : s.event_list.filter Ev001.isDep = [] := by
            have h2 := hcnt0
            rw [List.countP_eq_length_filter] at h2
            exact List.length_eq_zero.mp h2
          rw [depPkts, h1]
          rfl
        rw [step001_pop_arr hp hk, ha001_idle e hb2]
        apply inv001_maybeGen
        refine ⟨?_, ?_, ?_, ?_, ?_, ?_⟩
        · intro h
          exact Bool.noConfusion h
        · intro _
          show (rest ++ [depEv001 (advance001 e rest s).time e.packet]).countP
            Ev001.isDep = 1
          rw [List.countP_append, hrest0]
          rfl
        · intro ev hev hk2
          have hev2 : ev ∈ rest ++ [depEv001 (advance001 e rest s).time e.packet] := hev
          rcases List.mem_append.mp hev2 with hm | hnew
          · exact inv3 ev (hsub ev hm) hk2
          · simp at hnew
            subst hnew
            exact absurd hk2 (by simp [depEv001])
        · intro ev hev hk2
          have hev2 : ev ∈ rest ++ [depEv001 (advance001 e rest s).time e.packet] := hev
          rcases List.mem_append.mp hev2 with hm | hnew
          · exact inv4 ev (hsub ev hm) hk2
          · simp at hnew
            subst hnew
            rfl
        · show integralFrom 0 (s.log ++ [(e.time, (inSys001 s).length)]) =
            s.total_delay +
              ((depPkts (rest ++ [depEv001 (advance001 e rest s).time e.packet]) ++
                s.queue).length : ℚ) * e.time -
              sumArr001 (depPkts (rest ++ [depEv001 (advance001 e rest s).time e.packet]) ++
                s.queue)
          rw [integralFrom_append_single, inv5, inv6, inSys001, hqnil, hdps0,
            depPkts_append, hdpr0, depPkts_single_dep]
          show (s.total_delay + (((([] : List Pkt001) ++ []).length : ℚ)) * s.time -
              sumArr001 ([] ++ [])) +
              ((([] : List Pkt001) ++ []).length : ℚ) * (e.time - s.time) =
            s.total_delay +
              ((([] ++ [(depEv001 (advance001 e rest s).time e.packet).packet] ++
                ([] : List Pkt001)).length : ℚ)) * e.time -
              sumArr001 ([] ++ [(depEv001 (advance001 e rest s).time e.packet).packet] ++ [])
          have harr2 : (depEv001 (advance001 e rest s).time e.packet).packet.arrival_time =
              e.packet.arrival_time := rfl
          simp [sumArr001_append, sumArr001_cons, sumArr001_nil, harr2, ← hArrTime]
        · show lastTimeD 0 (s.log ++ [(e.time, (inSys001 s).length)]) = e.time
          exact lastTimeD_append_single 0 e.time _ _
    | departure =>
      have hde : Ev001.isDep e = true := isDep001_of_dep hk
      have hbusy : s.busy = true := by
        cases hb : s.busy with
        | true => rfl
        | false =>
          obtain ⟨_, hcnt0⟩ := inv1 hb
          have : 0 < s.event_list.countP Ev001.isDep :=
            List.countP_pos.mpr ⟨e, hmemE, hde⟩
          omega
      have hrest0 : rest.countP Ev001.isDep = 0 := by
        have h1 := inv2 hbusy
        rw [popMinBy_countP Ev001.time _ e rest Ev001.isDep hp, List.countP_cons, hde,
          if_pos rfl] at h1
        omega
      have hfil0 : rest.filter Ev001.isDep = [] := by
        have h2 := hrest0
        rw [List.countP_eq_length_filter] at h2
        exact List.length_eq_zero.mp h2
      have hdpr0 : depPkts rest = [] := by
        rw [depPkts, hfil0]
        rfl
      have hdcons : depPkts (e :: rest) = [e.packet] := by
        simp [depPkts, List.filter_cons, hde, hfil0]
      have hdp : (depPkts s.event_list).Perm [e.packet] := by
        have h1 : (depPkts s.event_list).Perm (depPkts (e :: rest)) :=
          (hperm.filter _).map _
        rw [hdcons] at h1
        exact h1
      have hl1 : (depPkts s.event_list).length = 1 := hdp.length_eq
      have hs1 : sumArr001 (depPkts s.event_list) = e.packet.arrival_time := by
        have h1 := (hdp.map (fun p => p.arrival_time)).sum_eq
        rw [sumArr001]
        simpa using h1
      have hdeT : e.packet.departure_time = some e.time := inv4 e hmemE hk
      have hgetD : e.packet.departure_time.getD 0 = e.time := by rw [hdeT]; rfl
      cases hq : s.queue with
      | nil =>
        have hq2 : (advance001 e rest s).queue = [] := hq
        rw [step001_pop_dep hp hk, hd001_nil e hq2]
        refine ⟨?_, ?_, ?_, ?_, ?_, ?_⟩
        · intro _
          exact ⟨hq, hrest0⟩
        · intro h
          exact Bool.noConfusion h
        · intro ev hev hk2
          exact inv3 ev (hsub ev hev) hk2
        · intro ev hev hk2
          exact inv4 ev (hsub ev hev) hk2
        · show integralFrom 0 (s.log ++ [(e.time, (inSys001 s).length)]) =
            (s.total_delay + (e.packet.departure_time.getD 0 - e.packet.arrival_time)) +
              ((depPkts rest ++ s.queue).length : ℚ) * e.time -
              sumArr001 (depPkts rest ++ s.queue)
          rw [integralFrom_append_single, inv5, inv6, inSys001, List.length_append,
            sumArr001_append, hl1, hs1, hq, hdpr0, hgetD]
          simp [sumArr001_nil]
          ring
        · show lastTimeD 0 (s.log ++ [(e.time, (inSys001 s).length)]) = e.time
          exact lastTimeD_append_single 0 e.time _ _
      | cons np rq =>
        have hq2 : (advance001 e rest s).queue = np :: rq := hq
        rw [step001_pop_dep hp hk, hd001_cons e hq2]
        refine ⟨?_, ?_, ?_, ?_, ?_, ?_⟩
        · intro h
          exact Bool.noConfusion (hbusy.symm.trans h)
        · intro _
          show (rest ++ [depEv001 (advance001 e rest s).time np]).countP Ev001.isDep = 1
          rw [List.countP_append, hrest0]
          rfl
        · intro ev hev hk2
          have hev2 : ev ∈ rest ++ [depEv001 (advance001 e rest s).time np] := hev
          rcases List.mem_append.mp hev2 with hm | hnew
          · exact inv3 ev (hsub ev hm) hk2
          · simp at hnew
            subst hnew
            exact absurd hk2 (by simp [depEv001])
        · intro ev hev hk2
          have hev2 : ev ∈ rest ++ [depEv001 (advance001 e rest s).time np] := hev
          rcases List.mem_append.mp hev2 with hm | hnew
          · exact inv4 ev (hsub ev hm) hk2
          · simp at hnew
            subst hnew
            rfl
        · show integralFrom 0 (s.log ++ [(e.time, (inSys001 s).length)]) =
            (s.total_delay + (e.packet.departure_time.getD 0 - e.packet.arrival_time)) +
              ((depPkts (rest ++ [depEv001 (advance001 e rest s).time np]) ++
                rq).length : ℚ) * e.time -
              sumArr001 (depPkts (rest ++ [depEv001 (advance001 e rest s).time np]) ++ rq)
          rw [integralFrom_append_single, inv5, inv6, inSys001, List.length_append,
            sumArr001_append, hl1, hs1, hq, depPkts_append, hdpr0, depPkts_single_dep,
            hgetD]
          have harr2 : (depEv001 (advance001 e rest s).time np).packet.arrival_time =
              np.arrival_time := rfl
          simp [sumArr001_append, sumArr001_cons, sumArr001_nil, harr2]
          push_cast
          ring
        · show lastTimeD 0 (s.log ++ [(e.time, (inSys001 s).length)]) = e.time
          exact lastTimeD_append_single 0 e.time _ _

theorem inv001_init (sizes : ℕ → ℕ) (gaps : ℕ → ℚ) (npkts : ℕ) :
    Inv001 (init001 sizes gaps npkts) := by
  refine ⟨?_, ?_, ?_, ?_, ?_, ?_⟩
  · intro _
    exact ⟨rfl, rfl⟩
  · intro h
    exact Bool.noConfusion h
  · intro ev hev hk2
    simp only [init001, generate_packet001, List.mem_singleton] at hev
    subst hev
    rfl
  · intro ev hev hk2
    simp only [init001, generate_packet001, List.mem_singleton] at hev
    subst hev
    simp at hk2
  · show integralFrom 0 [] =
      0 + ((inSys001 (init001 sizes gaps npkts)).length : ℚ) * 0 -
        sumArr001 (inSys001 (init001 sizes gaps npkts))
    have hsys : inSys001 (init001 sizes gaps npkts) = [] := rfl
    rw [hsys]
    simp [integralFrom, sumArr001]
  · rfl

theorem inv001_holds (sizes : ℕ → ℕ) (gaps : ℕ → ℚ) (npkts k : ℕ) :
    Inv001 (iter001 sizes gaps npkts k) := by
  induction k with
  | zero => exact inv001_init sizes gaps npkts
  | succ k ih =>
    rw [iter001_succ]
    exact inv001_step sizes gaps _ ih

theorem inv001_drained (sizes : ℕ → ℕ) (gaps : ℕ → ℚ) (npkts k : ℕ)
    (hdr : (iter001 sizes gaps npkts k).event_list = []) :
    integralFrom 0 (iter001 sizes gaps npkts k).log =
      (iter001 sizes gaps npkts k).total_delay := by
  obtain ⟨inv1, inv2, _, _, inv5, _⟩ := inv001_holds sizes gaps npkts k
  have hb : (iter001 sizes gaps npkts k).busy = false := by
    cases hb2 : (iter001 sizes gaps npkts k).busy with
    | false => rfl
    | true =>
      have h1 := inv2 hb2
      rw [hdr] at h1
      simp at h1
  obtain ⟨hq, _⟩ := inv1 hb
  have hsys : inSys001 (iter001 sizes gaps npkts k) = [] := by
    rw [inSys001, hq, hdr]
    rfl
  rw [inv5, hsys]
  simp [sumArr001]

/-- C3 (amended): in the trace-driven simulator (Lab1partB.py) every
waiting-queue entry, in every reachable state, stores exactly
serviceTimeUs of its own trace row, so the service time used when the
departure of that packet is scheduled at service start is a pure function
of the packet size and the fixed link rate; and in 001.py every event
that either handler adds to the event list is a departure scheduled at
the current time plus serviceTime001 of its own packet's recorded size
(every other event in the handler's output was already pending, or is
the next generated arrival), so the 001.py service time is likewise a
pure function of the packet size and the fixed link rate.  The original
claim fails for Lab1partA.py, where the packet size is drawn inside
start_service; see the counterexample theorem. -/
theorem c3_amended_service_time_pure :
    (∀ (trace : List (ℚ × ℚ)) (k : ℕ) (q : ℕ × ℚ × ℚ),
      q ∈ (iterB trace k).queue →
      q.2.2 = serviceTimeUs (trace.getD q.1 (0, 0)).2) ∧
    (∀ (sizes : ℕ → ℕ) (gaps : ℕ → ℚ) (e : Ev001) (s : State001),
      ∀ ev ∈ (handle_arrival001 sizes gaps e s).event_list,
        ev ∈ s.event_list ∨ ev.kind = EKind.arrival ∨
          ev.time = s.time + serviceTime001 ev.packet.size) ∧
    (∀ (e : Ev001) (s : State001),
      ∀ ev ∈ (handle_departure001 e s).event_list,
        ev ∈ s.event_list ∨
          ev.time = s.time + serviceTime001 ev.packet.size) := by
  refine ⟨?_, ?_, ?_⟩
  · intro trace k
    induction k with
    | zero => intro q hq; simp [iterB, initB] at hq
    | succ k ih =>
      intro q hq
      rw [iterB_succ] at hq
      cases hp : popMinBy Event.time (iterB trace k).event_list with
      | none => rw [stepB_pop_none hp] at hq; exact ih q hq
      | some p =>
        obtain ⟨e, rest⟩ := p
        cases hk : e.kind with
        | arrival =>
          rw [stepB_pop_arr hp hk, handle_arrivalB_queue] at hq
          rcases List.mem_append.mp hq with hmem | hnew
          · exact ih q hmem
          · have hq2 : q = (e.pkt, (advanceB e rest (iterB trace k)).curr_time,
                serviceTimeUs ((advanceB e rest (iterB trace k)).trace.getD e.pkt (0, 0)).2) := by
              simpa using hnew
            have ht : (advanceB e rest (iterB trace k)).trace = trace := iterB_trace trace k
            subst hq2
            simp [ht]
        | departure =>
          rw [stepB_pop_dep hp hk, handle_departureB_queue] at hq
          exact ih q (List.mem_of_mem_tail hq)
  · intro sizes gaps e s ev hev
    cases hb : s.busy with
    | false =>
      rw [ha001_idle e hb] at hev
      rcases maybeGen_events sizes gaps _ ev hev with hm | hk
      · have hm2 : ev ∈ s.event_list ++ [depEv001 s.time e.packet] := hm
        rcases List.mem_append.mp hm2 with h1 | h2
        · exact Or.inl h1
        · simp at h2
          subst h2
          exact Or.inr (Or.inr rfl)
      · exact Or.inr (Or.inl hk.1)
    | true =>
      rw [ha001_busy e hb] at hev
      rcases maybeGen_events sizes gaps _ ev hev with hm | hk
      · exact Or.inl hm
      · exact Or.inr (Or.inl hk.1)
  · intro e s ev hev
    cases hq : s.queue with
    | nil =>
      rw [hd001_nil e hq] at hev
      exact Or.inl hev
    | cons np rq =>
      rw [hd001_cons e hq] at hev
      have hev2 : ev ∈ s.event_list ++ [depEv001 s.time np] := hev
      rcases List.mem_append.mp hev2 with h1 | h2
      · exact Or.inl h1
      · simp at h2
        subst h2
        exact Or.inr rfl

/-- Witness for C3 (amended): after one step of the partB run on the
single-row trace (1, 1250), the queue holds packet 0 with stored service
time 1 = serviceTimeUs 1250; and in the 001.py run primed with one
1250-byte packet, handle_arrival applied to the initial state's arrival
event puts exactly the departure event depEv001 0 p0 (at time 0 +
serviceTime001 1250 = 1) on the event list. -/
theorem c3_amended_service_time_pure_witness :
    ((0, 1, 1) ∈ (iterB [(1, 1250)] 1).queue ∧
     ((0, 1, 1) : ℕ × ℚ × ℚ).2.2 =
       serviceTimeUs (([(1, 1250)] : List (ℚ × ℚ)).getD 0 (0, 0)).2) ∧
    (depEv001 0 ({ number := 0, arrival_time := 1, size := 1250, departure_time := none } :
        Pkt001) ∈
       (handle_arrival001 (fun _ => 1250) (fun _ => 1)
         ({ time := 1, kind := EKind.arrival,
            packet := { number := 0, arrival_time := 1, size := 1250,
                        departure_time := none } } : Ev001)
         (init001 (fun _ => 1250) (fun _ => 1) 1)).event_list ∧
     (depEv001 0 ({ number := 0, arrival_time := 1, size := 1250, departure_time := none } :
          Pkt001) ∈ (init001 (fun _ => 1250) (fun _ => 1) 1).event_list ∨
      (depEv001 0 ({ number := 0, arrival_time := 1, size := 1250, departure_time := none } :
          Pkt001)).kind = EKind.arrival ∨
      (depEv001 0 ({ number := 0, arrival_time := 1, size := 1250, departure_time := none } :
          Pkt001)).time =
        (init001 (fun _ => 1250) (fun _ => 1) 1).time +
          serviceTime001
            (depEv001 0 ({ number := 0, arrival_time := 1, size := 1250, departure_time := none } :
              Pkt001)).packet.size)) :=
  ⟨⟨by with_unfolding_all decide,
    c3_amended_service_time_pure.1 [(1, 1250)] 1 (0, 1, 1) (by with_unfolding_all decide)⟩,
   ⟨by set_option maxRecDepth 4000 in with_unfolding_all decide,
    c3_amended_service_time_pure.2.1 (fun _ => 1250) (fun _ => 1)
      ({ time := 1, kind := EKind.arrival,
         packet := { number := 0, arrival_time := 1, size := 1250,
                     departure_time := none } } : Ev001)
      (init001 (fun _ => 1250) (fun _ => 1) 1)
      (depEv001 0 ({ number := 0, arrival_time := 1, size := 1250, departure_time := none } :
        Pkt001))
      (by set_option maxRecDepth 4000 in with_unfolding_all decide)⟩⟩

/-- C1: in every reachable state of Lab1partA.py and Lab1partB.py with at
least one departed packet and positive elapsed simulated time, the
finalized statistics are N = (accumulated time-weighted area under the
packets-in-system step function) / (elapsed time) and T = (total
accumulated delay) / (departed count): the reported N is area_under_q /
curr_time where area_under_q provably equals the step-function integral
over the popped-event log, and the reported T is total_delay /
total_pkts.  001.py computes the same T = total_delay /
total_packets_in_system; its N is total_delay / time, which on every
fully drained run (empty event list, so every generated packet has
departed) equals the step-function area over the popped-event log
divided by the elapsed time, by the sojourn-sum identity proved in the
run invariant. -/
theorem c1_stats_formulas :
    (∀ (gaps sizes : ℕ → ℚ) (npkts k : ℕ),
      0 < (iterA gaps sizes npkts k).total_pkts →
      0 < (iterA gaps sizes npkts k).curr_time →
      finalStatsA (iterA gaps sizes npkts k) =
        Except.ok
          (integralFrom 0 (iterA gaps sizes npkts k).log / (iterA gaps sizes npkts k).curr_time,
           (iterA gaps sizes npkts k).total_delay /
             ((iterA gaps sizes npkts k).total_pkts : ℚ))) ∧
    (∀ (trace : List (ℚ × ℚ)) (k : ℕ),
      0 < (iterB trace k).total_pkts →
      0 < (iterB trace k).curr_time →
      finalStatsB (iterB trace k) =
        Except.ok
          (integralFrom 0 (iterB trace k).log / (iterB trace k).curr_time,
           (iterB trace k).total_delay / ((iterB trace k).total_pkts : ℚ))) ∧
    (∀ (sizes : ℕ → ℕ) (gaps : ℕ → ℚ) (npkts k : ℕ),
      (iter001 sizes gaps npkts k).event_list = [] →
      0 < (iter001 sizes gaps npkts k).total_packets_in_system →
      0 < (iter001 sizes gaps npkts k).time →
      finalStats001 (iter001 sizes gaps npkts k) =
        Except.ok
          (integralFrom 0 (iter001 sizes gaps npkts k).log / (iter001 sizes gaps npkts k).time,
           (iter001 sizes gaps npkts k).total_delay /
             ((iter001 sizes gaps npkts k).total_packets_in_system : ℚ))) := by
  refine ⟨?_, ?_, ?_⟩
  · intro gaps sizes npkts k h1 h2
    have hc : (iterA gaps sizes npkts k).curr_time ≠ 0 := ne_of_gt h2
    have hp : (iterA gaps sizes npkts k).total_pkts ≠ 0 := Nat.pos_iff_ne_zero.mp h1
    rw [finalStatsA, if_neg hc, if_neg hp, (areaInvA gaps sizes npkts k).1]
  · intro trace k h1 h2
    have hc : (iterB trace k).curr_time ≠ 0 := ne_of_gt h2
    have hp : (iterB trace k).total_pkts ≠ 0 := Nat.pos_iff_ne_zero.mp h1
    rw [finalStatsB, if_neg hc, if_neg hp, (areaInvB trace k).1]
  · intro sizes gaps npkts k hdr h1 h2
    have hc : (iter001 sizes gaps npkts k).time ≠ 0 := ne_of_gt h2
    have hp : (iter001 sizes gaps npkts k).total_packets_in_system ≠ 0 :=
      Nat.pos_iff_ne_zero.mp h1
    rw [finalStats001, if_neg hp, if_neg hc, inv001_drained sizes gaps npkts k hdr]

/-- Witness for C1: the full TraceSimulator run on the single-row trace
(1, 1250) has one departed packet, elapsed time 2, and its statistics
equal the claimed quotients; and the full 001.py run with size draws
25000, 12500 bytes and unit gaps drains after 4 iterations with two
departed packets, elapsed time 31 and ghost-log area 49 = total_delay,
so its statistics also equal the claimed quotients. -/
theorem c1_stats_formulas_witness :
    (0 < (iterB [(1, 1250)] 2).total_pkts ∧
     0 < (iterB [(1, 1250)] 2).curr_time ∧
     finalStatsB (iterB [(1, 1250)] 2) =
       Except.ok
         (integralFrom 0 (iterB [(1, 1250)] 2).log / (iterB [(1, 1250)] 2).curr_time,
          (iterB [(1, 1250)] 2).total_delay / ((iterB [(1, 1250)] 2).total_pkts : ℚ))) ∧
    ((iter001 (fun n => [25000, 12500].getD n 0) (fun _ => 1) 2 4).event_list = [] ∧
     0 < (iter001 (fun n => [25000, 12500].getD n 0) (fun _ => 1) 2 4).total_packets_in_system ∧
     0 < (iter001 (fun n => [25000, 12500].getD n 0) (fun _ => 1) 2 4).time ∧
     finalStats001 (iter001 (fun n => [25000, 12500].getD n 0) (fun _ => 1) 2 4) =
       Except.ok
         (integralFrom 0 (iter001 (fun n => [25000, 12500].getD n 0) (fun _ => 1) 2 4).log /
            (iter001 (fun n => [25000, 12500].getD n 0) (fun _ => 1) 2 4).time,
          (iter001 (fun n => [25000, 12500].getD n 0) (fun _ => 1) 2 4).total_delay /
            ((iter001 (fun n => [25000, 12500].getD n 0) (fun _ => 1) 2
              4).total_packets_in_system : ℚ))) :=
  ⟨⟨by with_unfolding_all decide, by with_unfolding_all decide,
    c1_stats_formulas.2.1 [(1, 1250)] 2 (by with_unfolding_all decide)
      (by with_unfolding_all decide)⟩,
   ⟨by with_unfolding_all decide, by with_unfolding_all decide, by with_unfolding_all decide,
    c1_stats_formulas.2.2 (fun n => [25000, 12500].getD n 0) (fun _ => 1) 2 4
      (by with_unfolding_all decide) (by with_unfolding_all decide)
      (by with_unfolding_all decide)⟩⟩

/-- C8: packets depart in the order they were enqueued.  In every
reachable state of Lab1partB.py, Lab1partA.py and 001.py, the ghost list
of packet ids in enqueue order equals the ghost list of departed ids (in
departure-processing order for partA and partB; in Queue.remove order
for 001.py, which removes a waiting packet exactly when its departure is
scheduled) followed by the ids still waiting, in queue order: every
removal takes exactly the oldest remaining enqueued packet
(handle_departure pops the queue head), so the departure order is an
order-preserving prefix of the enqueue order and no reordering can occur
within the single server. -/
theorem c8_fifo_departure_order :
    (∀ (trace : List (ℚ × ℚ)) (k : ℕ),
      (iterB trace k).enqIds =
        (iterB trace k).depIds ++ (iterB trace k).queue.map (fun q => q.1)) ∧
    (∀ (gaps sizes : ℕ → ℚ) (npkts k : ℕ),
      (iterA gaps sizes npkts k).enqIds =
        (iterA gaps sizes npkts k).depIds ++
          (iterA gaps sizes npkts k).queue.map (fun q => q.1)) ∧
    (∀ (sizes : ℕ → ℕ) (gaps : ℕ → ℚ) (npkts k : ℕ),
      (iter001 sizes gaps npkts k).enqIds =
        (iter001 sizes gaps npkts k).remIds ++
          (iter001 sizes gaps npkts k).queue.map (fun p => p.number)) :=
  ⟨fifoInvB, fifoInvA, fifoInv001⟩
